import Mathlib

/-!
# Verification of the ARG–HMRG colocalization pipeline

A shallow embedding, in Lean 4, of the decision logic of the
ARG/HMRG colocalization analysis scripts:

* `10.5_create_hmrg_annotation_map.py` — header parsing and the
  accession→gene-name translation table (`process_header`, `main`);
* `11_run_colocalization_analysis_v6.py` — best-hit loading,
  HMRG accession extraction (`parse_hmrg_accession`), and the
  contig colocalization detector (`analyze_sample`);
* `12_analyze_abundance_v3.py` — pair-abundance counting
  (`process_pair_abundance`), the second copy of
  `parse_hmrg_accession`, and HMRG abundance counting
  (`process_hmrg_abundance`);
* `13_prepare_cluster_data_v4.py` — duplicate-annotation merging
  (`aggregate_duplicates` and its surrounding group-by pass);
* `14_filter_top_clusters-v3.py` — contig density ranking.

Strings are embedded as `List Char` (Python `str` values are
sequences of code points, compared lexicographically by code
point, exactly as `List Char` with `Char` order).  Python string
primitives (`split`, `strip`, slicing idioms) are re-implemented
below with the same semantics; `pandas` operations are modelled
on lists: `sort_values` as a sort on the relevant key,
`drop_duplicates` as keep-first deduplication, `groupby` as
grouping by sorted distinct keys with within-group input order
preserved, `unique()` as first-seen deduplication, and
`Counter` as an association list keyed in first-insertion order.
-/

namespace ArgHmrg

/-! ## Python string primitives -/
/-- Python `s.split(sep)` for a one-character separator: splits on every
occurrence, keeping empty fields; `"".split(sep) = [""]`. -/
def pySplit (sep : Char) : List Char → List (List Char)
  | [] => [[]]
  | c :: rest =>
    if c = sep then
      [] :: pySplit sep rest
    else
      match pySplit sep rest with
      | [] => [[c]]
      | f :: fs => (c :: f) :: fs

/-- Python `s.strip()`: removes leading and trailing whitespace. -/
def pyStrip (s : List Char) : List Char :=
  ((s.dropWhile Char.isWhitespace).reverse.dropWhile Char.isWhitespace).reverse

/-- Python `s.strip(c)` for a single character: removes leading and
trailing copies of `c`. -/
def pyStripChar (c : Char) (s : List Char) : List Char :=
  ((s.dropWhile (· = c)).reverse.dropWhile (· = c)).reverse

/-- Python `s.split('.')[0]`: the prefix of `s` before the first `'.'`
(used throughout the scripts to strip an accession's version suffix). -/
def dropVersion (s : List Char) : List Char :=
  (pySplit '.' s).headD []

/-- Python `l.index(a)` (leftmost index; the scripts only call it when
`a ∈ l` holds). -/
def pyIndex [DecidableEq α] (a : α) : List α → Nat
  | [] => 0
  | b :: rest => if b = a then 0 else pyIndex a rest + 1

/-- Python `s.rsplit(sep, 1)[0]`: everything before the last occurrence
of `sep`, or `s` itself when `sep` does not occur.  Models
`protein_id.str.rsplit('_', n=1).str[0]`, the contig-id derivation. -/
def rsplitHead (sep : Char) (s : List Char) : List Char :=
  if sep ∈ s then (((s.reverse.dropWhile (· ≠ sep)).drop 1).reverse) else s

/-- Python `<` on strings: lexicographic comparison by code point. -/
def pyLt : List Char → List Char → Bool
  | [], [] => false
  | [], _ :: _ => true
  | _ :: _, [] => false
  | x :: xs, y :: ys => if x = y then pyLt xs ys else decide (x < y)

/-! ## pandas primitives on lists -/
/-- pandas `Series.unique()` / first-seen deduplication: keeps the first
occurrence of every value, in input order.  `seen` accumulates the
values already emitted. -/
def firstSeenAux [DecidableEq α] (seen : List α) : List α → List α
  | [] => []
  | a :: rest =>
    if a ∈ seen then firstSeenAux seen rest
    else a :: firstSeenAux (a :: seen) rest

/-- First-seen deduplication with an empty accumulator. -/
def firstSeen [DecidableEq α] (l : List α) : List α :=
  firstSeenAux [] l

/-- Insertion step of the comparison sorts: `before b a = true` keeps
`b` in front of the element `a` being inserted. -/
def insertComp (before : α → α → Bool) (a : α) : List α → List α
  | [] => [a]
  | b :: rest => if before b a then b :: insertComp before a rest else a :: b :: rest

/-- Insertion sort under an arbitrary strict precedence `before`;
the single sorting routine behind Python `sorted` and pandas
`sort_values` in this embedding. -/
def sortComp (before : α → α → Bool) : List α → List α
  | [] => []
  | a :: rest => insertComp before a (sortComp before rest)

/-- Sort ascending by a string key: models Python `sorted` and pandas
`groupby`'s sorted key order. -/
def sortAscBy (key : α → List Char) : List α → List α :=
  sortComp (fun b a => pyLt (key b) (key a))

/-- Sort descending by a string key: models
`sort_values(..., ascending=False)` on a `dtype=str` column. -/
def sortDescBy (key : α → List Char) : List α → List α :=
  sortComp (fun b a => pyLt (key a) (key b))

/-- Sort descending by a numeric key: models
`sort_values(..., ascending=False)` on a count column. -/
def sortDescNat (key : α → Nat) : List α → List α :=
  sortComp (fun b a => decide (key a < key b))

/-- Association-list lookup (first match), as used for the loaded
translation-table dictionary. -/
def alistFind (k : List Char) : List (List Char × List Char) → Option (List Char)
  | [] => none
  | (k', v) :: rest => if k' = k then some v else alistFind k rest

/-! ## AlignmentRecordLoader (`11_run_colocalization_analysis_v6.py`, `analyze_sample` steps 1–2)

The scripts read the hit files with `pd.read_csv(..., dtype=str)`, so every
column — including `bitscore` — is a string, then run
`.sort_values('bitscore', ascending=False).drop_duplicates('protein_id')`.
On a string column `sort_values` orders lexicographically by code point. -/
/-- One parsed alignment-hit row (columns 0, 1, 2, 10, 11 of the `.m8`
file, all read as strings because of `dtype=str`). -/
structure Hit where
  protein_id : List Char
  sseqid : List Char
  pident : List Char
  evalue : List Char
  bitscore : List Char
  deriving DecidableEq

/-- Models `drop_duplicates('protein_id')` with the default `keep='first'`:
retains the first row seen for each `protein_id`. -/
def dropDupProtein (seen : List (List Char)) : List Hit → List Hit
  | [] => []
  | r :: rest =>
    if r.protein_id ∈ seen then dropDupProtein seen rest
    else r :: dropDupProtein (r.protein_id :: seen) rest

/-- Models `df.sort_values('bitscore', ascending=False).drop_duplicates('protein_id')`
on a `dtype=str` frame: descending lexicographic sort on the raw
`bitscore` string, then keep-first deduplication on `protein_id`. -/
def loadHits (rows : List Hit) : List Hit :=
  dropDupProtein [] (sortDescBy (·.bitscore) rows)

/-! ## AccessionTranslator — the two `parse_hmrg_accession` implementations -/
/-- The NCBI database-code tokens scanned, in this fixed order, by both
`parse_hmrg_accession` implementations and by `process_header`. -/
def dbCodes : List (List Char) :=
  [['r', 'e', 'f'], ['g', 'b'], ['e', 'm', 'b'], ['s', 'p'], ['t', 'r']]

/-- The guarded database-code loop shared by
`11_run_colocalization_analysis_v6.py:parse_hmrg_accession` and
`10.5_create_hmrg_annotation_map.py:process_header`:

    for code in db_codes:
        if code in parts:
            idx = parts.index(code)
            if len(parts) > idx + 1:
                <take parts[idx + 1]>   -- return / assign-and-break
    <fall through when no code yields a successor field>

When a found code is the last field, the loop moves on to the next code
rather than failing. -/
def dbAccLoop (parts : List (List Char)) : List (List Char) → Option (List Char)
  | [] => none
  | code :: restCodes =>
    if code ∈ parts then
      if parts.length > pyIndex code parts + 1 then
        some (parts.getD (pyIndex code parts + 1) [])
      else dbAccLoop parts restCodes
    else dbAccLoop parts restCodes

/-- The sentinel returned when no extraction strategy applies. -/
def unknownAccession : List Char := "unknown_accession".data

/-- The sentinel returned when processing raises. -/
def parseErrorStr : List Char := "parse_error".data

/-- Models `parse_hmrg_accession` from `11_run_colocalization_analysis_v6.py`
(lines 39–57).  The body is total on strings (every list access is
length-guarded), so the `except: return "parse_error"` branch is
unreachable and does not appear here.  The loop returns
`parts[idx + 1].split('.')[0]`; since it returns at exactly the spot
where `dbAccLoop` yields `some`, that is `dropVersion` of the loop's
result. -/
def parse_hmrg_accession_v6 (sseqid : List Char) : List Char :=
  match dbAccLoop (pySplit '|' (pyStrip sseqid)) dbCodes with
  | some a => dropVersion a
  | none =>
    if (pySplit '|' (pyStrip sseqid)).length > 3 then
      (pySplit '|' (pyStrip sseqid)).getD 3 []
    else unknownAccession

/-- The try-block body of `parse_hmrg_accession` from
`12_analyze_abundance_v3.py` (lines 89–98):

    for code in db_codes:
        if code in parts: return parts[parts.index(code) + 1].split('.')[0]
    if len(parts) > 3: return parts[3]
    return "unknown_accession"

Unlike the v6 loop, it indexes `parts[idx + 1]` unguarded at the first
code found, so a code sitting in the last field raises `IndexError`
(modelled as `Except.error ()`). -/
def v12Body (sseqid : List Char) : Except Unit (List Char) :=
  match dbCodes.find? (fun code => decide (code ∈ pySplit '|' (pyStrip sseqid))) with
  | some code =>
    if pyIndex code (pySplit '|' (pyStrip sseqid)) + 1 < (pySplit '|' (pyStrip sseqid)).length then
      Except.ok (dropVersion ((pySplit '|' (pyStrip sseqid)).getD
        (pyIndex code (pySplit '|' (pyStrip sseqid)) + 1) []))
    else Except.error ()
  | none =>
    if (pySplit '|' (pyStrip sseqid)).length > 3 then
      Except.ok ((pySplit '|' (pyStrip sseqid)).getD 3 [])
    else Except.ok unknownAccession

/-- Models `parse_hmrg_accession` from `12_analyze_abundance_v3.py`, with the
`except: return "parse_error"` wrapper. -/
def parse_hmrg_accession_v12 (sseqid : List Char) : List Char :=
  match v12Body sseqid with
  | Except.ok a => a
  | Except.error _ => parseErrorStr

/-- Decidable guard: either no database code occurs among the
`'|'`-split fields, or the first one that occurs (in the fixed scan
order of `dbCodes`) is followed by a further field. -/
def firstDbGuardedB (sseqid : List Char) : Bool :=
  match dbCodes.find? (fun code => decide (code ∈ pySplit '|' (pyStrip sseqid))) with
  | some code =>
    decide (pyIndex code (pySplit '|' (pyStrip sseqid)) + 1 < (pySplit '|' (pyStrip sseqid)).length)
  | none => true

/-! ## HeaderParser (`10.5_create_hmrg_annotation_map.py`, `process_header`)

The gene-name strategies use the two compiled patterns

    bracket_pattern = re.compile(r"\[([^\]]+)\]\s*$")
    gn_pattern      = re.compile(r"GN=([\w\(\)\-\_/\.]+)")

`re.search` returns the leftmost position at which the whole pattern
matches.  For the bracket pattern the greedy `[^\]]+` cannot backtrack
usefully (a shorter group leaves a non-`]` character before `\]`), so
at a given `[` the match succeeds iff the run of non-`]` characters
after it is non-empty, is closed by `]`, and only whitespace follows.
For the `GN=` pattern a match at a given position succeeds iff the
literal `GN=` is followed by a non-empty run of token characters. -/
/-- Token characters of `GN=([\w\(\)\-\_/\.]+)` (the headers are ASCII,
where `\w` is alphanumerics plus underscore). -/
def gnCharOk (c : Char) : Bool :=
  c.isAlphanum || c = '_' || c = '(' || c = ')' || c = '-' || c = '/' || c = '.'

/-- Attempt to match `\[([^\]]+)\]\s*$` at the current position. -/
def bracketMatchAt : List Char → Option (List Char)
  | [] => none
  | c :: rest =>
    if c = '[' then
      match rest.dropWhile (· ≠ ']') with
      | _ :: tail =>
        if (rest.takeWhile (· ≠ ']')).isEmpty || !tail.all (·.isWhitespace) then none
        else some (rest.takeWhile (· ≠ ']'))
      | [] => none
    else none

/-- Models `bracket_pattern.search(header)`: group 1 of the leftmost match of
`\[([^\]]+)\]\s*$`, if any. -/
def bracketSearch : List Char → Option (List Char)
  | [] => none
  | c :: rest =>
    match bracketMatchAt (c :: rest) with
    | some g => some g
    | none => bracketSearch rest

/-- Models `gn_pattern.search(header)`: group 1 of the leftmost match of
`GN=([\w\(\)\-\_/\.]+)`, if any. -/
def gnSearch : List Char → Option (List Char)
  | [] => none
  | c :: rest =>
    match c, rest with
    | 'G', 'N' :: '=' :: r =>
      if (r.takeWhile gnCharOk).isEmpty then gnSearch rest
      else some (r.takeWhile gnCharOk)
    | _, _ => gnSearch rest

/-- Python truthiness of an optional string: `None` and `""` are falsy
(`if not accession ...`, `if not gene_name ...`). -/
def pyFalsy : Option (List Char) → Bool
  | none => true
  | some s => s.isEmpty

/-- Models `process_header` from `10.5_create_hmrg_annotation_map.py`
(lines 28–70): strips the header, extracts a gene name (trailing
bracket first, `GN=` second), extracts an accession (database-code
loop first, BacMet 4th-field fallback second, with the 2nd field as a
backup gene name), and finally falls back to the version-stripped
accession as gene name. -/
def processHeader (line : List Char) : Option (List Char) × Option (List Char) :=
  let header := pyStripChar '>' (pyStrip line)
  let geneName0 : Option (List Char) :=
    match bracketSearch header with
    | some g => some g
    | none => gnSearch header
  let parts := pySplit '|' header
  let acc0 := dbAccLoop parts dbCodes
  let acc1 :=
    if pyFalsy acc0 && decide (parts.length > 3) then some (parts.getD 3 []) else acc0
  let geneName1 :=
    if pyFalsy acc0 && decide (parts.length > 3) && pyFalsy geneName0 then
      some (parts.getD 1 [])
    else geneName0
  let geneName2 :=
    if pyFalsy geneName1 && !pyFalsy acc1 then acc1.map dropVersion else geneName1
  (acc1, geneName2)

/-- The key under which `main` of `10.5_create_hmrg_annotation_map.py`
persists a header's entry in the written translation table: the header
must yield a truthy accession and gene name (`if accession and
gene_name`), both `accession` and its version-stripped form are
registered, and the final `unique_map` re-keys every entry to
`acc.split('.')[0]`, so the persisted key is the version-stripped
accession. -/
def persistKey (line : List Char) : Option (List Char) :=
  match processHeader line with
  | (some a, some g) => if !a.isEmpty && !g.isEmpty then some (dropVersion a) else none
  | _ => none

/-- Every `[` in the list is closed by a later `]` (so a bracketed
token appended after the list cannot be absorbed into an earlier
match of the bracket pattern). -/
def bracketClosed : List Char → Bool
  | [] => true
  | c :: rest => if c = '[' then decide (']' ∈ rest) && bracketClosed rest else bracketClosed rest

/-! ## ColocalizationDetector (`11_run_colocalization_analysis_v6.py`, `analyze_sample`)

`analyze_sample` annotates the two best-hit streams (`gene_type
= 'ARG'` for CARD rows, `'HMRG'` for translated BacMet rows),
derives `contig_id = protein_id.rsplit('_', 1)[0]`, collects the
distinct gene types per contig, and keeps contigs having both; if the
resulting set is empty it prints an informational message and returns
before any output is produced (modelled as `none`). -/
/-- One fully annotated alignment row of `df_annotations`. -/
structure AnnRow where
  protein_id : List Char
  gene_name : List Char
  gene_type : List Char
  pident : List Char
  evalue : List Char
  bitscore : List Char
  deriving DecidableEq

/-- Models `parse_card_gene_name`: `sseqid.strip().split('|')[-1]`. -/
def parse_card_gene_name (sseqid : List Char) : List Char :=
  (pySplit '|' (pyStrip sseqid)).getLastD []

/-- Step 1 of `analyze_sample`: load CARD best hits, derive the gene
name, tag with `gene_type = 'ARG'`. -/
def cardAnnotations (cardRows : List Hit) : List AnnRow :=
  (loadHits cardRows).map fun h =>
    ⟨h.protein_id, parse_card_gene_name h.sseqid, "ARG".data, h.pident, h.evalue, h.bitscore⟩

/-- Step 2 of `analyze_sample`: load BacMet best hits, extract the
accession, translate through the loaded map with the accession itself
as fallback (`.map(hmrg_map).fillna(accession)`), tag with
`gene_type = 'HMRG'`. -/
def bacmetAnnotations (hmrgMap : List (List Char × List Char)) (bacmetRows : List Hit) :
    List AnnRow :=
  (loadHits bacmetRows).map fun h =>
    ⟨h.protein_id,
     ((alistFind (parse_hmrg_accession_v6 h.sseqid) hmrgMap).getD
       (parse_hmrg_accession_v6 h.sseqid)),
     "HMRG".data, h.pident, h.evalue, h.bitscore⟩

/-- Models `contig_id` column of `df_annotations`:
`protein_id.str.rsplit('_', n=1).str[0]`. -/
def annRowContig (r : AnnRow) : List Char :=
  rsplitHead '_' r.protein_id

/-- The distinct gene types of one contig:
`groupby('contig_id')['gene_type'].unique()`. -/
def geneTypesOn (anns : List AnnRow) (c : List Char) : List (List Char) :=
  firstSeen ((anns.filter (fun r => annRowContig r = c)).map (·.gene_type))

/-- The colocalized contig set: the contigs (grouped in sorted key
order by pandas) whose distinct gene types contain both `'ARG'` and
`'HMRG'`. -/
def colocalizedContigs (anns : List AnnRow) : List (List Char) :=
  (sortAscBy id (firstSeen (anns.map annRowContig))).filter
    (fun c => decide ("ARG".data ∈ geneTypesOn anns c)
      && decide ("HMRG".data ∈ geneTypesOn anns c))

/-- One parsed coordinate row (GFF columns; `end` is a reserved word in
Lean, so that column is named `stop` here). -/
structure GffRow where
  contig_id : List Char
  source : List Char
  type : List Char
  start : Nat
  stop : Nat
  score : List Char
  strand : List Char
  phase : List Char
  attributes : List Char
  deriving DecidableEq

/-- Python `s.split(sep)` for a multi-character separator: scans left
to right for non-overlapping occurrences.  `s0 :: stail` is the
(non-empty) separator; `acc` holds the current field reversed.  The
fuel argument makes the recursion structural; every step consumes at
least one input character, so with initial fuel `s.length` the
zero-fuel case is unreachable. -/
def splitOnSeqFuel (s0 : Char) (stail : List Char) : Nat → List Char → List Char → List (List Char)
  | _, [], acc => [acc.reverse]
  | 0, rest, acc => [acc.reverse ++ rest]
  | fuel + 1, c :: rest, acc =>
    if (s0 :: stail).isPrefixOf (c :: rest) then
      acc.reverse :: splitOnSeqFuel s0 stail fuel ((c :: rest).drop (stail.length + 1)) []
    else splitOnSeqFuel s0 stail fuel rest (c :: acc)

/-- Python `s.split(sep)` for a non-empty multi-character separator. -/
def splitOnSeq (sep : List Char) (s : List Char) : List (List Char) :=
  match sep with
  | [] => [s]
  | s0 :: stail => splitOnSeqFuel s0 stail s.length s []

/-- Models `parse_gff_attributes`:
`attr_string.split('ID=')[1].split(';')[0].split('_')[-1]`, with the
bare `except` returning `""` when there is no `'ID='` (the `[1]`
raising `IndexError`). -/
def parse_gff_attributes (attr : List Char) : List Char :=
  match splitOnSeq ['I', 'D', '='] attr with
  | _ :: second :: _ => (pySplit '_' ((pySplit ';' second).headD [])).getLastD []
  | _ => []

/-- Models `df_gff['protein_id'] = contig_id + '_' + parse_gff_attributes(attributes)`. -/
def gffProteinId (g : GffRow) : List Char :=
  g.contig_id ++ '_' :: parse_gff_attributes g.attributes

/-- One row of the final detailed report. -/
structure OutRow where
  contig_id : List Char
  protein_id : List Char
  start : Nat
  stop : Nat
  strand : List Char
  gene_type : List Char
  gene_name : Option (List Char)
  pident : Option (List Char)
  evalue : Option (List Char)
  bitscore : Option (List Char)
  deriving DecidableEq

/-- Models `pd.merge(df_target_gff, df_annotations, on='protein_id',
how='left')` followed by `fillna('Other')` on `gene_type`: each
coordinate row is joined with every matching annotation row (in
order); an unmatched row gets gene_type `'Other'` and missing
annotation fields. -/
def joinRows (gffRows : List GffRow) (anns : List AnnRow) : List OutRow :=
  gffRows.flatMap fun g =>
    match anns.filter (fun a => a.protein_id = gffProteinId g) with
    | [] => [⟨g.contig_id, gffProteinId g, g.start, g.stop, g.strand,
              "Other".data, none, none, none, none⟩]
    | hits => hits.map fun a =>
        ⟨g.contig_id, gffProteinId g, g.start, g.stop, g.strand,
         a.gene_type, some a.gene_name, some a.pident, some a.evalue, some a.bitscore⟩

/-- Strict order for `sort_values(by=['contig_id_x', 'start'])`. -/
def outLt (x y : OutRow) : Bool :=
  pyLt x.contig_id y.contig_id || (x.contig_id = y.contig_id && x.start < y.start)

/-- Sort the final report by (contig, start). -/
def sortOutRows : List OutRow → List OutRow :=
  sortComp outLt

/-- Models `analyze_sample`, from the two loaded hit streams onward: build the
annotations, detect colocalized contigs, and either stop with the
informational no-colocalization outcome (`none`: no output written, no
exception raised) or produce the joined, sorted detailed report. -/
def analyzeSample (hmrgMap : List (List Char × List Char))
    (cardRows bacmetRows : List Hit) (gffRows : List GffRow) : Option (List OutRow) :=
  let anns := cardAnnotations cardRows ++ bacmetAnnotations hmrgMap bacmetRows
  let coloc := colocalizedContigs anns
  if coloc = [] then none
  else
    let cds := gffRows.filter (fun g => g.type = "CDS".data)
    let target := cds.filter (fun g => decide (g.contig_id ∈ coloc))
    some (sortOutRows (joinRows target anns))

/-! ## DuplicateAnnotationMerger (`13_prepare_cluster_data_v4.py`, `aggregate_duplicates`)

`process_sample` of script 13 splits the detailed report into
`df_annotated = df[df.gene_type != 'Other']` and
`df_other = df[df.gene_type == 'Other']`, applies
`groupby('protein_id').apply(aggregate_duplicates)` to the annotated
part (pandas groups in sorted key order, preserving input order within
each group) and concatenates `df_other` back unchanged.  Script 14's
`aggregate_duplicates` (lines 71–86) performs the same per-group
merge. -/
/-- One row of the detailed report as consumed by scripts 13 and 14
(`gene_name` may be null for unannotated rows). -/
structure PlotRow where
  contig_id : List Char
  protein_id : List Char
  start : Nat
  stop : Nat
  strand : List Char
  gene_type : List Char
  gene_name : Option (List Char)
  deriving DecidableEq

/-- Python `sep.join(strs)` for a one-character separator. -/
def joinChar (sep : Char) : List (List Char) → List Char
  | [] => []
  | [x] => x
  | x :: y :: rest => x ++ sep :: joinChar sep (y :: rest)

/-- Python `sep.join(strs)` for a multi-character separator. -/
def joinSeq (sep : List Char) : List (List Char) → List Char
  | [] => []
  | [x] => x
  | x :: y :: rest => x ++ sep ++ joinSeq sep (y :: rest)

/-- Models `aggregate_duplicates`: a singleton group passes through unchanged;
a larger group collapses to its first row with
`gene_type = '/'.join(sorted(group['gene_type'].unique()))` and
`gene_name = ' / '.join(group['gene_name'].dropna().unique())`
(positional fields, being those of the first row, are untouched by the
record update). -/
def aggregate_duplicates : List PlotRow → Option PlotRow
  | [] => none
  | [r] => some r
  | first :: second :: rest =>
    some { first with
      gene_type :=
        joinChar '/' (sortAscBy id (firstSeen ((first :: second :: rest).map (·.gene_type)))),
      gene_name :=
        some (joinSeq (' ' :: '/' :: [' '])
          (firstSeen ((first :: second :: rest).filterMap (·.gene_name)))) }

/-- Models `df.groupby('protein_id')`: one group per distinct key, keys in
sorted order, group members in input order. -/
def groupByProtein (rows : List PlotRow) : List (List PlotRow) :=
  (sortAscBy id (firstSeen (rows.map (·.protein_id)))).map
    (fun k => rows.filter (fun r => r.protein_id = k))

/-- The full deduplication pass of script 13: merge the annotated rows
per protein, then concatenate the `'Other'` rows back unchanged. -/
def aggregateDuplicatesPass (rows : List PlotRow) : List PlotRow :=
  ((groupByProtein (rows.filter (fun r => r.gene_type ≠ "Other".data))).filterMap
      aggregate_duplicates)
    ++ rows.filter (fun r => r.gene_type = "Other".data)

/-! ## PairAbundanceCounter (`12_analyze_abundance_v3.py`, `process_pair_abundance`)

The script restricts the detailed report to annotated rows
(`gene_type ∈ {ARG, HMRG}`, non-null `gene_name`), collects per contig
the unique ARG and HMRG gene names (pandas `groupby(...).unique()`:
contigs in sorted key order, names in first-seen order), and for every
contig carrying both categories updates a `Counter` with
`set(itertools.product(arg_list, hmrg_list))`.  Both name lists are
duplicate-free, so the product already has no duplicate pairs and the
`set(...)` conversion only forgets the (count-irrelevant) iteration
order; the counter update is modelled by folding the product list.
Finally the counter's items are written sorted descending by count. -/
/-- Models `df[df['gene_type'].isin(['ARG', 'HMRG'])].dropna(subset=['gene_name'])`. -/
def pairAnnotated (rows : List PlotRow) : List PlotRow :=
  rows.filter (fun r =>
    (r.gene_type = "ARG".data ∨ r.gene_type = "HMRG".data) ∧ r.gene_name ≠ none)

/-- Unique ARG gene names on one contig, in first-seen order. -/
def argNamesOn (rows : List PlotRow) (c : List Char) : List (List Char) :=
  firstSeen (((pairAnnotated rows).filter
    (fun r => r.gene_type = "ARG".data ∧ r.contig_id = c)).filterMap (·.gene_name))

/-- Unique HMRG gene names on one contig, in first-seen order. -/
def hmrgNamesOn (rows : List PlotRow) (c : List Char) : List (List Char) :=
  firstSeen (((pairAnnotated rows).filter
    (fun r => r.gene_type = "HMRG".data ∧ r.contig_id = c)).filterMap (·.gene_name))

/-- The index of `args_per_contig`: distinct contigs with at least one
ARG row, in sorted order. -/
def argContigs (rows : List PlotRow) : List (List Char) :=
  sortAscBy id (firstSeen
    (((pairAnnotated rows).filter (fun r => r.gene_type = "ARG".data)).map (·.contig_id)))

/-- The index of `hmrgs_per_contig`. -/
def hmrgContigs (rows : List PlotRow) : List (List Char) :=
  sortAscBy id (firstSeen
    (((pairAnnotated rows).filter (fun r => r.gene_type = "HMRG".data)).map (·.contig_id)))

/-- Models `itertools.product(arg_list, hmrg_list)` as a list of pairs. -/
def listProd (l1 l2 : List (List Char)) : List (List Char × List Char) :=
  l1.flatMap (fun a => l2.map (fun h => (a, h)))

/-- One `Counter` increment: bump the existing entry in place or append
a new entry with count 1 (Python `Counter` keeps first-insertion key
order). -/
def bumpPair (cnt : List ((List Char × List Char) × Nat)) (p : List Char × List Char) :
    List ((List Char × List Char) × Nat) :=
  match cnt with
  | [] => [(p, 1)]
  | (q, n) :: rest => if q = p then (q, n + 1) :: rest else (q, n) :: bumpPair rest p

/-- Models `pair_counter.update(pairs)`. -/
def bumpPairs (cnt : List ((List Char × List Char) × Nat))
    (ps : List (List Char × List Char)) : List ((List Char × List Char) × Nat) :=
  ps.foldl bumpPair cnt

/-- The body of the per-contig loop: contigs in the HMRG index
contribute their name-pair product, others contribute nothing. -/
def pairStep (rows : List PlotRow) (cnt : List ((List Char × List Char) × Nat))
    (c : List Char) : List ((List Char × List Char) × Nat) :=
  if c ∈ hmrgContigs rows then
    bumpPairs cnt (listProd (argNamesOn rows c) (hmrgNamesOn rows c))
  else cnt

/-- The filled pair counter for one sample. -/
def pairCounter (rows : List PlotRow) : List ((List Char × List Char) × Nat) :=
  (argContigs rows).foldl (pairStep rows) []

/-- The written pair-abundance report:
`sort_values(by='shared_contig_count', ascending=False)`. -/
def pairAbundanceRows (rows : List PlotRow) : List ((List Char × List Char) × Nat) :=
  sortDescNat (·.2) (pairCounter rows)

/-- Counter lookup (0 for an absent key). -/
def lookupPair (cnt : List ((List Char × List Char) × Nat)) (p : List Char × List Char) : Nat :=
  match cnt with
  | [] => 0
  | (q, n) :: rest => if q = p then n else lookupPair rest p

/-! ## DensityRanker (`14_filter_top_clusters-v3.py`, `process_sample`)

`gene_counts = df.groupby(['contig_id', 'gene_type']).size().unstack(fill_value=0)`
tallies rows per (contig, gene type); missing `ARG`/`HMRG` columns are
inserted as 0.  `density_score = ARG * HMRG`; the frame is sorted
descending by score, filtered to score > 0, and the first
`NUM_TOP_CONTIGS_TO_PLOT` contigs are selected. -/
/-- The `NUM_TOP_CONTIGS_TO_PLOT` configuration constant of script 14. -/
def NUM_TOP_CONTIGS_TO_PLOT : Nat := 10

/-- The per-contig tally of one gene type (0 when absent, matching
`unstack(fill_value=0)` plus the inserted zero columns). -/
def typeCountOn (rows : List PlotRow) (c t : List Char) : Nat :=
  rows.countP (fun r => decide (r.contig_id = c ∧ r.gene_type = t))

/-- The scored contig table: one row per distinct contig (pandas group
keys, sorted), with `density_score = ARG_count × HMRG_count`. -/
def densityScores (rows : List PlotRow) : List (List Char × Nat) :=
  (sortAscBy id (firstSeen (rows.map (·.contig_id)))).map
    (fun c => (c, typeCountOn rows c "ARG".data * typeCountOn rows c "HMRG".data))

/-- Models `sort_values(by='density_score', ascending=False)`, then
`[density_score > 0]`, then `.head(NUM_TOP_CONTIGS_TO_PLOT)`: the
ranked selection (kept with its scores; the script takes the `set` of
these contigs as `target_contigs`). -/
def topDensityContigs (rows : List PlotRow) : List (List Char × Nat) :=
  ((sortDescNat (·.2) (densityScores rows)).filter (fun e => 0 < e.2)).take
    NUM_TOP_CONTIGS_TO_PLOT

/-! ## SingleCategoryAbundanceCounter (`12_analyze_abundance_v3.py`, `process_hmrg_abundance`)

Reads the raw (pre-best-hit) BacMet hits, extracts each accession with
the script's own `parse_hmrg_accession`, translates through the loaded
map with the accession itself as fallback, and writes
`value_counts()` (per-name frequencies, sorted descending). -/
/-- One raw BacMet hit row as read by `process_hmrg_abundance`
(`usecols=[0, 1]`). -/
structure BacmetRawRow where
  protein_id : List Char
  sseqid : List Char
  deriving DecidableEq

/-- Models `accession = parse_hmrg_accession(sseqid)` followed by
`.map(hmrg_map).fillna(accession)`. -/
def translateHmrg (hmrgMap : List (List Char × List Char)) (sseqid : List Char) : List Char :=
  (alistFind (parse_hmrg_accession_v12 sseqid) hmrgMap).getD (parse_hmrg_accession_v12 sseqid)

/-- Models `df_bacmet['gene_name'].value_counts()` as written to the HMRG
abundance report: one row per distinct translated name with its raw
occurrence count, sorted descending by count. -/
def hmrgAbundanceRows (hmrgMap : List (List Char × List Char)) (rows : List BacmetRawRow) :
    List (List Char × Nat) :=
  sortDescNat (·.2)
    ((firstSeen (rows.map (fun r => translateHmrg hmrgMap r.sseqid))).map
      (fun g => (g, (rows.map (fun r => translateHmrg hmrgMap r.sseqid)).count g)))

/-! ## Lemmas and claim theorems -/

/-! ### Lemmas relating the two database-code loops -/
lemma dbAccLoop_eq_none_of_find_none (parts : List (List Char)) :
    ∀ codes : List (List Char),
      codes.find? (fun code => decide (code ∈ parts)) = none →
      dbAccLoop parts codes = none := by
  intro codes
  induction codes with
  | nil => intro _; rfl
  | cons c cs ih =>
    intro h
    rw [List.find?_cons] at h
    by_cases hc : c ∈ parts
    · rw [decide_eq_true hc] at h
      simp at h
    · rw [decide_eq_false hc] at h
      simp at h
      simp [dbAccLoop, hc, ih (List.find?_eq_none.mpr (by simpa using h))]

lemma dbAccLoop_eq_of_find_guarded (parts : List (List Char)) :
    ∀ (codes : List (List Char)) (code : List Char),
      codes.find? (fun c => decide (c ∈ parts)) = some code →
      pyIndex code parts + 1 < parts.length →
      dbAccLoop parts codes = some (parts.getD (pyIndex code parts + 1) []) := by
  intro codes
  induction codes with
  | nil => intro code h; simp [List.find?] at h
  | cons c cs ih =>
    intro code h hg
    rw [List.find?_cons] at h
    by_cases hc : c ∈ parts
    · rw [decide_eq_true hc] at h
      have hcc : c = code := by simpa using h
      subst hcc
      simp [dbAccLoop, hc, hg]
    · rw [decide_eq_false hc] at h
      simp at h
      simp [dbAccLoop, hc, ih code h hg]

/-! ## Claims C1, C2, C9 -/
/-- Claim C1: (code-bug evidence).  The claim says the loader retains the
row with the maximum `bit_score` under *numeric* comparison.  Because
the frame is read with `dtype=str`, `sort_values('bitscore',
ascending=False)` orders the raw strings lexicographically, so for one
query with raw bit_scores `"100"` and `"25"` the loader retains the
`"25"` row (`"25" > "100"` as strings), although a `"100"` row is
present and is the numeric maximum. -/
theorem C1_loader_retains_lexicographic_not_numeric_max :
    (loadHits
        [⟨"k_1".data, "s1".data, "90".data, "1e-50".data, "100".data⟩,
         ⟨"k_1".data, "s2".data, "80".data, "1e-10".data, "25".data⟩]).map (·.bitscore)
      = ["25".data]
    ∧ "100".data ∈
        ([⟨"k_1".data, "s1".data, "90".data, "1e-50".data, "100".data⟩,
          ⟨"k_1".data, "s2".data, "80".data, "1e-10".data, "25".data⟩] : List Hit).map (·.bitscore) := by
  decide

/-- Claim C2: (counterexample).  The two `parse_hmrg_accession`
implementations disagree when a database-code token is the last
`'|'`-separated field: on the input `"ref"`, the colocalization version
falls through to the sentinel `"unknown_accession"` while the abundance
version indexes past the end, raising `IndexError`, and returns
`"parse_error"`. -/
theorem C2_counterexample_dbcode_last_field :
    parse_hmrg_accession_v6 "ref".data = unknownAccession
    ∧ parse_hmrg_accession_v12 "ref".data = parseErrorStr
    ∧ parse_hmrg_accession_v6 "ref".data ≠ parse_hmrg_accession_v12 "ref".data := by
  decide

/-- Claim C2: (amended).  The two `parse_hmrg_accession` implementations
agree on every `subject_id` in which the first database-code token
present among the `'|'`-split fields (scanned in the order `ref`, `gb`,
`emb`, `sp`, `tr`) is followed by a further field, and on every
`subject_id` containing no database-code token at all
(`firstDbGuardedB`); they may differ only when the first present code
is the final field. -/
theorem C2_amended_extractors_agree (s : List Char) (h : firstDbGuardedB s = true) :
    parse_hmrg_accession_v6 s = parse_hmrg_accession_v12 s := by
  unfold firstDbGuardedB at h
  unfold parse_hmrg_accession_v6 parse_hmrg_accession_v12 v12Body
  cases hf : dbCodes.find? (fun code => decide (code ∈ pySplit '|' (pyStrip s))) with
  | none =>
    rw [dbAccLoop_eq_none_of_find_none _ dbCodes hf]
    by_cases hl : (pySplit '|' (pyStrip s)).length > 3 <;> simp [hl]
  | some code =>
    rw [hf] at h
    have hg : pyIndex code (pySplit '|' (pyStrip s)) + 1 < (pySplit '|' (pyStrip s)).length := by
      simpa using h
    rw [dbAccLoop_eq_of_find_guarded _ dbCodes code hf hg]
    simp [hg]

/-- Witness for the amended C2 at a well-formed NCBI-style subject id. -/
theorem C2_amended_extractors_agree_witness :
    firstDbGuardedB "gi|1|ref|WP_9.1|x".data = true
    ∧ parse_hmrg_accession_v6 "gi|1|ref|WP_9.1|x".data
        = parse_hmrg_accession_v12 "gi|1|ref|WP_9.1|x".data :=
  ⟨by decide, C2_amended_extractors_agree _ (by decide)⟩

/-- Claim C9:.  Both accession extractors are total functions (no Lean
partiality, matching the `try/except` wrappers): when no database-code
token occurs among the `'|'`-split fields and the split has at most 3
fields, both return the sentinel `"unknown_accession"`; and whenever
the abundance version's try-block raises (`v12Body` returns an error —
the only raising site, the unguarded `parts[idx + 1]`), the wrapper
returns the sentinel `"parse_error"`.  The colocalization version's
body has no raising site: every access is length-guarded, so its
`except` branch is unreachable. -/
theorem C9_extraction_sentinels (s : List Char) :
    (dbCodes.all (fun code => !decide (code ∈ pySplit '|' (pyStrip s))) = true →
      (pySplit '|' (pyStrip s)).length ≤ 3 →
      parse_hmrg_accession_v6 s = unknownAccession
      ∧ parse_hmrg_accession_v12 s = unknownAccession)
    ∧ (v12Body s = Except.error () → parse_hmrg_accession_v12 s = parseErrorStr) := by
  constructor
  · intro hall hlen
    have hf : dbCodes.find? (fun code => decide (code ∈ pySplit '|' (pyStrip s))) = none := by
      rw [List.find?_eq_none]
      intro code hcode
      have := List.all_eq_true.mp hall code hcode
      simpa using this
    have hl : ¬ (pySplit '|' (pyStrip s)).length > 3 := by omega
    constructor
    · unfold parse_hmrg_accession_v6
      rw [dbAccLoop_eq_none_of_find_none _ dbCodes hf]
      simp [hl]
    · unfold parse_hmrg_accession_v12 v12Body
      rw [hf]
      simp [hl]
  · intro herr
    unfold parse_hmrg_accession_v12
    rw [herr]

/-- Witness for C9: a bare field with no database code yields
`"unknown_accession"` from both extractors, and the raising input
`"ref"` yields `"parse_error"` from the abundance extractor. -/
theorem C9_extraction_sentinels_witness :
    (parse_hmrg_accession_v6 "abc".data = unknownAccession
      ∧ parse_hmrg_accession_v12 "abc".data = unknownAccession)
    ∧ parse_hmrg_accession_v12 "ref".data = parseErrorStr :=
  ⟨(C9_extraction_sentinels "abc".data).1 (by decide) (by decide),
   (C9_extraction_sentinels "ref".data).2 (by rfl)⟩

/-! ### Lemmas about the bracket-pattern search -/
lemma takeWhile_append_stop {q : Char → Bool} :
    ∀ X r : List Char, (∀ c ∈ X, q c = true) → ∀ c₀, q c₀ = false →
      (X ++ c₀ :: r).takeWhile q = X := by
  intro X
  induction X with
  | nil => intro r _ c₀ hc; simp [List.takeWhile_cons, hc]
  | cons x xs ih =>
    intro r hX c₀ hc
    have hx : q x = true := hX x (by simp)
    simp [List.takeWhile_cons, hx]
    exact ih r (fun c hcm => hX c (by simp [hcm])) c₀ hc

lemma dropWhile_append_stop {q : Char → Bool} :
    ∀ X r : List Char, (∀ c ∈ X, q c = true) → ∀ c₀, q c₀ = false →
      (X ++ c₀ :: r).dropWhile q = c₀ :: r := by
  intro X
  induction X with
  | nil => intro r _ c₀ hc; simp [List.dropWhile_cons, hc]
  | cons x xs ih =>
    intro r hX c₀ hc
    have hx : q x = true := hX x (by simp)
    simp [List.dropWhile_cons, hx]
    exact ih r (fun c hcm => hX c (by simp [hcm])) c₀ hc

lemma bracketMatchAt_closing (X : List Char) (hne : X ≠ []) (hX : ']' ∉ X) :
    bracketMatchAt ('[' :: (X ++ [']'])) = some X := by
  have hall : ∀ c ∈ X, decide (c ≠ ']') = true := by
    intro c hc
    simp
    intro he
    exact hX (he ▸ hc)
  have hs : ¬ (']' : Char) ≠ ']' := by simp
  have ht : (X ++ [']']).takeWhile (fun c => decide (c ≠ ']')) = X :=
    takeWhile_append_stop X [] hall ']' (by simp)
  have hd : (X ++ [']']).dropWhile (fun c => decide (c ≠ ']')) = [']'] :=
    dropWhile_append_stop X [] hall ']' (by simp)
  have hxe : X.isEmpty = false := by
    cases X with
    | nil => exact absurd rfl hne
    | cons a l => rfl
  simp only [bracketMatchAt, if_pos rfl, hd, ht, hxe]
  simp

lemma dropWhile_ne_nil_of_mem {q : Char → Bool} :
    ∀ l : List Char, ∀ c ∈ l, q c = false → l.dropWhile q ≠ [] := by
  intro l
  induction l with
  | nil => intro c hc; simp at hc
  | cons x xs ih =>
    intro c hc hqc
    rw [List.mem_cons] at hc
    by_cases hx : q x
    · rw [List.dropWhile_cons, if_pos hx]
      rcases hc with hc | hc
      · subst hc; rw [hx] at hqc; cases hqc
      · exact ih c hc hqc
    · rw [List.dropWhile_cons, if_neg hx]
      simp

lemma dropWhile_append_left {q : Char → Bool} :
    ∀ l l₂ : List Char, l.dropWhile q ≠ [] →
      (l ++ l₂).dropWhile q = l.dropWhile q ++ l₂ := by
  intro l
  induction l with
  | nil => intro l₂ h; exact absurd rfl h
  | cons x xs ih =>
    intro l₂ h
    by_cases hx : q x
    · rw [List.dropWhile_cons, if_pos hx] at h
      rw [List.cons_append, List.dropWhile_cons, if_pos hx, List.dropWhile_cons, if_pos hx,
        ih l₂ h]
    · rw [List.cons_append, List.dropWhile_cons, if_neg hx, List.dropWhile_cons, if_neg hx]
      rfl

lemma head_dropWhile_false {q : Char → Bool} :
    ∀ (l : List Char) (c : Char) (t : List Char), l.dropWhile q = c :: t → q c = false := by
  intro l
  induction l with
  | nil => intro c t h; simp at h
  | cons x xs ih =>
    intro c t h
    by_cases hx : q x
    · rw [List.dropWhile_cons, if_pos hx] at h
      exact ih c t h
    · rw [List.dropWhile_cons, if_neg hx] at h
      cases h
      exact Bool.eq_false_iff.mpr hx

lemma bracketMatchAt_open_fail (p' X : List Char) (hmem : ']' ∈ p') :
    bracketMatchAt ('[' :: (p' ++ '[' :: (X ++ [']']))) = none := by
  have hne : p'.dropWhile (fun c => decide (c ≠ ']')) ≠ [] :=
    dropWhile_ne_nil_of_mem p' ']' hmem (by simp)
  have hd := dropWhile_append_left (q := fun c => decide (c ≠ ']')) p' ('[' :: (X ++ [']'])) hne
  rcases hcons : p'.dropWhile (fun c => decide (c ≠ ']')) with _ | ⟨c, t⟩
  · exact absurd hcons hne
  · have hc : decide (c ≠ ']') = false := head_dropWhile_false p' c t hcons
    have hc' : c = ']' := by simpa using hc
    subst hc'
    rw [hcons] at hd
    have htail : ¬ ((t ++ '[' :: (X ++ [']'])).all (·.isWhitespace) = true) := by
      rw [List.all_eq_true]
      intro hall
      have := hall '[' (by simp)
      simp at this
    simp only [bracketMatchAt, if_pos rfl, hd, List.cons_append]
    simp [htail]

lemma bracketSearch_closed_prefix :
    ∀ p X : List Char, X ≠ [] → ']' ∉ X → bracketClosed p = true →
      bracketSearch (p ++ '[' :: (X ++ [']'])) = some X := by
  intro p
  induction p with
  | nil =>
    intro X hne hX _
    simp only [List.nil_append, bracketSearch, bracketMatchAt_closing X hne hX]
  | cons c p' ih =>
    intro X hne hX hp
    by_cases hc : c = '['
    · subst hc
      have hp2 : (']' ∈ p') ∧ bracketClosed p' = true := by
        simpa [bracketClosed] using hp
      have hmem : ']' ∈ p' := hp2.1
      have hcl : bracketClosed p' = true := hp2.2
      rw [List.cons_append]
      simp only [bracketSearch, bracketMatchAt_open_fail p' X hmem]
      exact ih X hne hX hcl
    · have hcl : bracketClosed p' = true := by
        simpa [bracketClosed, hc] using hp
      rw [List.cons_append]
      simp only [bracketSearch]
      have hmat : bracketMatchAt (c :: (p' ++ '[' :: (X ++ [']']))) = none := by
        simp [bracketMatchAt, hc]
      rw [hmat]
      exact ih X hne hX hcl

/-! ## Claim C8 -/
/-- Claim C8:.  For every header whose stripped form ends with a bracketed
token `[X]` (`X` non-empty, containing no `]`, and with every earlier
`[` of the header closed, so that the trailing token is the well-defined
one), `process_header` returns `X` verbatim as the gene name — the
bracket strategy runs before the `GN=` strategy, so any `GN=` field in
the header is ignored. -/
theorem C8_trailing_bracket_gene_name (line p X : List Char)
    (hs : pyStripChar '>' (pyStrip line) = p ++ '[' :: (X ++ [']']))
    (hne : X ≠ []) (hX : ']' ∉ X) (hp : bracketClosed p = true) :
    (processHeader line).2 = some X := by
  have hb : bracketSearch (pyStripChar '>' (pyStrip line)) = some X := by
    rw [hs]
    exact bracketSearch_closed_prefix p X hne hX hp
  have hxe : X.isEmpty = false := by
    cases X with
    | nil => exact absurd rfl hne
    | cons a l => rfl
  simp only [processHeader]
  rw [hb]
  simp [pyFalsy, hxe]

/-- Witness for C8: a header carrying both a `GN=` field and a trailing
bracketed token resolves its gene name to the bracketed token. -/
theorem C8_trailing_bracket_gene_name_witness :
    (processHeader ">sp|P0|ACRF protein GN=envD [acrF]".data).2 = some "acrF".data :=
  C8_trailing_bracket_gene_name ">sp|P0|ACRF protein GN=envD [acrF]".data
    "sp|P0|ACRF protein GN=envD ".data "acrF".data (by decide) (by decide) (by decide)
    (by decide)

/-! ### Lemmas about `pySplit` and non-empty search groups -/
lemma pySplit_ne_nil (sep : Char) : ∀ s : List Char, pySplit sep s ≠ [] := by
  intro s
  cases s with
  | nil => simp [pySplit]
  | cons c rest =>
    by_cases hc : c = sep
    · simp [pySplit, hc]
    · simp only [pySplit, if_neg hc]
      rcases pySplit sep rest with _ | ⟨f, fs⟩ <;> simp

lemma pySplit_append (sep : Char) :
    ∀ a b : List Char, sep ∉ a → pySplit sep (a ++ sep :: b) = a :: pySplit sep b := by
  intro a
  induction a with
  | nil => intro b _; simp [pySplit]
  | cons c a' ih =>
    intro b ha
    have hc : c ≠ sep := by
      intro hcc
      exact ha (by simp [hcc])
    have ha' : sep ∉ a' := fun hmm => ha (by simp [hmm])
    rw [List.cons_append]
    simp only [pySplit, if_neg hc, ih b ha']

lemma bracketMatchAt_some_ne_nil :
    ∀ l g : List Char, bracketMatchAt l = some g → g ≠ [] := by
  intro l g h
  cases l with
  | nil => cases h
  | cons c rest =>
    simp only [bracketMatchAt] at h
    by_cases hc : c = '['
    · rw [if_pos hc] at h
      cases hd : rest.dropWhile (fun x => decide (x ≠ ']')) with
      | nil => rw [hd] at h; cases h
      | cons x tail =>
        rw [hd] at h
        have h' :
            (if ((rest.takeWhile fun x => decide (x ≠ ']')).isEmpty
                  || !tail.all (·.isWhitespace)) = true then (none : Option (List Char))
             else some (rest.takeWhile fun x => decide (x ≠ ']'))) = some g := h
        by_cases hcond :
            ((rest.takeWhile fun x => decide (x ≠ ']')).isEmpty
              || !tail.all (·.isWhitespace)) = true
        · rw [if_pos hcond] at h'; cases h'
        · rw [if_neg hcond] at h'
          cases h'
          rw [Bool.or_eq_true, not_or] at hcond
          intro hg
          exact hcond.1 (by rw [hg]; rfl)
    · rw [if_neg hc] at h; cases h

lemma bracketSearch_some_ne_nil :
    ∀ l g : List Char, bracketSearch l = some g → g ≠ [] := by
  intro l
  induction l with
  | nil => intro g h; cases h
  | cons c rest ih =>
    intro g h
    simp only [bracketSearch] at h
    cases hm : bracketMatchAt (c :: rest) with
    | some g' =>
      rw [hm] at h
      cases h
      exact bracketMatchAt_some_ne_nil _ _ hm
    | none =>
      rw [hm] at h
      exact ih g h

lemma gnSearch_some_ne_nil :
    ∀ l g : List Char, gnSearch l = some g → g ≠ [] := by
  intro l
  induction l with
  | nil => intro g h; cases h
  | cons c rest ih =>
    intro g h
    unfold gnSearch at h
    split at h
    · rename_i r
      split at h
      · exact ih g h
      · rename_i hcond
        cases h
        intro hg
        exact hcond (by simp [hg])
    · exact ih g h

/-! ## Claim C6 -/
/-- Claim C6:.  For every header of the form `>gi|<n>|ref|WP_999.1|<rest>`
(the second field containing no `|` and not itself being the literal
`ref`), the annotation-map builder persists the header's entry under the
version-stripped key `WP_999`, and the colocalization script's
`parse_hmrg_accession` returns the same `WP_999` on the corresponding
subject id — the builder and the translator agree on the lookup key.
The two strip hypotheses characterize the raw line / subject id pair as
sharing that canonical stripped form. -/
theorem C6_builder_translator_key_agreement (line sseq gi tail : List Char)
    (hline : pyStripChar '>' (pyStrip line)
      = "gi".data ++ '|' :: (gi ++ '|' :: ("ref".data ++ '|' :: ("WP_999.1".data ++ '|' :: tail))))
    (hsseq : pyStrip sseq
      = "gi".data ++ '|' :: (gi ++ '|' :: ("ref".data ++ '|' :: ("WP_999.1".data ++ '|' :: tail))))
    (hgi : '|' ∉ gi) (hgiref : gi ≠ "ref".data) :
    persistKey line = some "WP_999".data
    ∧ parse_hmrg_accession_v6 sseq = "WP_999".data := by
  set H : List Char :=
    "gi".data ++ '|' :: (gi ++ '|' :: ("ref".data ++ '|' :: ("WP_999.1".data ++ '|' :: tail)))
    with hH
  have hsplit : pySplit '|' H
      = "gi".data :: gi :: "ref".data :: "WP_999.1".data :: pySplit '|' tail := by
    rw [hH, pySplit_append '|' "gi".data _ (by decide), pySplit_append '|' gi _ hgi,
      pySplit_append '|' "ref".data _ (by decide),
      pySplit_append '|' "WP_999.1".data _ (by decide)]
  have h1 : ("gi".data : List Char) ≠ "ref".data := by decide
  have hidx : pyIndex "ref".data (pySplit '|' H) = 2 := by
    rw [hsplit]
    simp [pyIndex, h1, hgiref]
  have hmem : ("ref".data : List Char) ∈ pySplit '|' H := by
    rw [hsplit]; simp
  have hlen : (pySplit '|' H).length > 3 := by
    rw [hsplit]
    simp only [List.length_cons]
    omega
  have hgetD : (pySplit '|' H).getD 3 [] = "WP_999.1".data := by
    rw [hsplit]; rfl
  have hcodes : dbCodes
      = "ref".data :: ["gb".data, "emb".data, "sp".data, "tr".data] := rfl
  have hloop : dbAccLoop (pySplit '|' H) dbCodes = some "WP_999.1".data := by
    rw [hcodes, dbAccLoop, if_pos hmem, hidx,
      if_pos (show (pySplit '|' H).length > 2 + 1 by omega),
      show (2 : Nat) + 1 = 3 from rfl, hgetD]
  have hfa : pyFalsy (some "WP_999.1".data) = false := by decide
  have hne1 : ("WP_999.1".data : List Char).isEmpty = false := by decide
  have hdv : dropVersion "WP_999.1".data = "WP_999".data := by decide
  refine ⟨?_, ?_⟩
  · unfold persistKey
    simp only [processHeader]
    rw [hline, hloop]
    cases hbs : bracketSearch H with
    | some g =>
      have hg : g.isEmpty = false := by
        have := bracketSearch_some_ne_nil H g hbs
        cases g with
        | nil => exact absurd rfl this
        | cons x xs => rfl
      simp [hbs, hfa, pyFalsy, hg, hne1, hdv]
    | none =>
      cases hgn : gnSearch H with
      | some g =>
        have hg : g.isEmpty = false := by
          have := gnSearch_some_ne_nil H g hgn
          cases g with
          | nil => exact absurd rfl this
          | cons x xs => rfl
        simp [hbs, hgn, hfa, pyFalsy, hg, hne1, hdv]
      | none =>
        simp [hbs, hgn, hfa, pyFalsy, hne1, hdv]
  · unfold parse_hmrg_accession_v6
    rw [hsseq, hloop]
    exact hdv

/-- Witness for C6 on a concrete NCBI-style header and its subject id. -/
theorem C6_builder_translator_key_agreement_witness :
    persistKey ">gi|123|ref|WP_999.1|multidrug efflux protein".data = some "WP_999".data
    ∧ parse_hmrg_accession_v6 "gi|123|ref|WP_999.1|multidrug efflux protein".data
        = "WP_999".data :=
  C6_builder_translator_key_agreement
    ">gi|123|ref|WP_999.1|multidrug efflux protein".data
    "gi|123|ref|WP_999.1|multidrug efflux protein".data
    "123".data "multidrug efflux protein".data
    (by decide) (by decide) (by decide) (by decide)

/-! ### Membership lemmas for `firstSeen` and the string sorts -/
lemma mem_firstSeenAux [DecidableEq α] (a : α) :
    ∀ (l : List α) (seen : List α), a ∈ firstSeenAux seen l ↔ a ∈ l ∧ a ∉ seen := by
  intro l
  induction l with
  | nil => intro seen; simp [firstSeenAux]
  | cons x xs ih =>
    intro seen
    by_cases hx : x ∈ seen
    · rw [firstSeenAux, if_pos hx, ih]
      constructor
      · rintro ⟨h1, h2⟩
        exact ⟨by simp [h1], h2⟩
      · rintro ⟨h1, h2⟩
        rcases List.mem_cons.mp h1 with h1 | h1
        · subst h1; exact absurd hx h2
        · exact ⟨h1, h2⟩
    · rw [firstSeenAux, if_neg hx]
      constructor
      · intro h
        rcases List.mem_cons.mp h with h | h
        · subst h; exact ⟨by simp, hx⟩
        · have := (ih (x :: seen)).mp h
          refine ⟨by simp [this.1], ?_⟩
          intro hmm
          exact this.2 (by simp [hmm])
      · rintro ⟨h1, h2⟩
        rcases List.mem_cons.mp h1 with h1 | h1
        · subst h1; simp
        · by_cases hax : a = x
          · subst hax; simp
          · refine List.mem_cons.mpr (Or.inr ((ih (x :: seen)).mpr ⟨h1, ?_⟩))
            intro hmm
            rcases List.mem_cons.mp hmm with hmm | hmm
            · exact hax hmm
            · exact h2 hmm

lemma mem_firstSeen [DecidableEq α] (a : α) (l : List α) :
    a ∈ firstSeen l ↔ a ∈ l := by
  rw [firstSeen, mem_firstSeenAux]
  simp

lemma insertComp_perm (before : α → α → Bool) (a : α) :
    ∀ l : List α, (insertComp before a l).Perm (a :: l) := by
  intro l
  induction l with
  | nil => simp [insertComp]
  | cons x xs ih =>
    by_cases hx : before x a
    · rw [insertComp, if_pos hx]
      exact (ih.cons x).trans (List.Perm.swap a x xs)
    · rw [insertComp, if_neg hx]

lemma sortComp_perm (before : α → α → Bool) :
    ∀ l : List α, (sortComp before l).Perm l := by
  intro l
  induction l with
  | nil => simp [sortComp]
  | cons x xs ih =>
    exact (insertComp_perm before x (sortComp before xs)).trans (ih.cons x)

lemma mem_sortComp (before : α → α → Bool) (a : α) (l : List α) :
    a ∈ sortComp before l ↔ a ∈ l :=
  (sortComp_perm before l).mem_iff

lemma mem_sortAscBy (key : α → List Char) (a : α) (l : List α) :
    a ∈ sortAscBy key l ↔ a ∈ l :=
  mem_sortComp _ a l

lemma insertComp_sorted (before : α → α → Bool)
    (hasymm : ∀ x y, before x y = true → before y x = false)
    (htrans : ∀ x y z, before y x = false → before z y = false → before z x = false)
    (a : α) :
    ∀ l : List α, l.Pairwise (fun x y => before y x = false) →
      (insertComp before a l).Pairwise (fun x y => before y x = false) := by
  intro l
  induction l with
  | nil => intro _; simp [insertComp]
  | cons b rest ih =>
    intro h
    rw [List.pairwise_cons] at h
    by_cases hb : before b a
    · rw [insertComp, if_pos hb]
      rw [List.pairwise_cons]
      refine ⟨?_, ih h.2⟩
      intro x hx
      rcases (insertComp_perm before a rest).mem_iff.mp hx with hx'
      rcases List.mem_cons.mp hx' with hx' | hx'
      · subst hx'
        exact hasymm b x hb
      · exact h.1 x hx'
    · rw [insertComp, if_neg hb]
      rw [List.pairwise_cons]
      refine ⟨?_, List.pairwise_cons.mpr h⟩
      intro x hx
      rcases List.mem_cons.mp hx with hx' | hx'
      · subst hx'
        exact Bool.eq_false_iff.mpr hb
      · exact htrans a b x (Bool.eq_false_iff.mpr hb) (h.1 x hx')

lemma sortComp_sorted (before : α → α → Bool)
    (hasymm : ∀ x y, before x y = true → before y x = false)
    (htrans : ∀ x y z, before y x = false → before z y = false → before z x = false) :
    ∀ l : List α, (sortComp before l).Pairwise (fun x y => before y x = false) := by
  intro l
  induction l with
  | nil => simp [sortComp]
  | cons x xs ih =>
    exact insertComp_sorted before hasymm htrans x (sortComp before xs) ih

/-! ## Claim C3 -/
/-- Claim C3:.  A contig is flagged as colocalized iff its distinct set of
gene types contains both `'ARG'` and `'HMRG'`; and when the colocalized
set is empty, `analyze_sample` stops with the informational outcome
`none` — no report rows are produced and (the embedding being a total
function) no exception is raised. -/
theorem C3_colocalization_flag_iff (hmrgMap : List (List Char × List Char))
    (cardRows bacmetRows : List Hit) (gffRows : List GffRow) :
    (∀ c, c ∈ colocalizedContigs (cardAnnotations cardRows
            ++ bacmetAnnotations hmrgMap bacmetRows)
        ↔ ("ARG".data ∈ geneTypesOn (cardAnnotations cardRows
              ++ bacmetAnnotations hmrgMap bacmetRows) c
           ∧ "HMRG".data ∈ geneTypesOn (cardAnnotations cardRows
              ++ bacmetAnnotations hmrgMap bacmetRows) c))
    ∧ (colocalizedContigs (cardAnnotations cardRows ++ bacmetAnnotations hmrgMap bacmetRows) = []
        → analyzeSample hmrgMap cardRows bacmetRows gffRows = none) := by
  constructor
  · intro c
    constructor
    · intro h
      have := List.of_mem_filter h
      constructor
      · have h1 := Bool.and_elim_left this
        simpa using h1
      · have h2 := Bool.and_elim_right this
        simpa using h2
    · rintro ⟨h1, h2⟩
      apply List.mem_filter.mpr
      refine ⟨?_, by simp [h1, h2]⟩
      rw [mem_sortAscBy, mem_firstSeen]
      rw [geneTypesOn, mem_firstSeen] at h1
      rcases List.mem_map.mp h1 with ⟨r, hr, _⟩
      have hrf := List.mem_filter.mp hr
      rcases List.mem_map.mp (List.mem_map_of_mem annRowContig hrf.1) with ⟨r', hr', he⟩
      have hc : annRowContig r = c := by simpa using hrf.2
      rw [← hc]
      exact List.mem_map_of_mem annRowContig hrf.1
  · intro h
    simp only [analyzeSample, h]
    rfl

/-! ### Lemmas for the merger -/
lemma nodup_firstSeenAux [DecidableEq α] :
    ∀ (l seen : List α), (firstSeenAux seen l).Nodup := by
  intro l
  induction l with
  | nil => intro seen; simp [firstSeenAux]
  | cons x xs ih =>
    intro seen
    by_cases hx : x ∈ seen
    · rw [firstSeenAux, if_pos hx]
      exact ih seen
    · rw [firstSeenAux, if_neg hx]
      refine List.nodup_cons.mpr ⟨?_, ih (x :: seen)⟩
      intro hmem
      exact ((mem_firstSeenAux x xs (x :: seen)).mp hmem).2 (by simp)

lemma nodup_firstSeen [DecidableEq α] (l : List α) : (firstSeen l).Nodup :=
  nodup_firstSeenAux l []

lemma nodup_sortComp (before : α → α → Bool) (l : List α) (h : l.Nodup) :
    (sortComp before l).Nodup :=
  (sortComp_perm before l).nodup_iff.mpr h

lemma slash_mem_joinChar (a b : List Char) (rest : List (List Char)) :
    '/' ∈ joinChar '/' (a :: b :: rest) := by
  rw [joinChar]
  exact List.mem_append.mpr (Or.inr (by simp))

lemma aggregate_duplicates_fst :
    ∀ (g : List PlotRow) (r : PlotRow), aggregate_duplicates g = some r →
      ∃ first rest, g = first :: rest ∧ r.protein_id = first.protein_id
        ∧ r.contig_id = first.contig_id ∧ r.start = first.start
        ∧ r.stop = first.stop ∧ r.strand = first.strand := by
  intro g r h
  cases g with
  | nil => cases h
  | cons first tl =>
    cases tl with
    | nil =>
      refine ⟨first, [], rfl, ?_⟩
      rw [aggregate_duplicates] at h
      cases h
      simp
    | cons second rest =>
      refine ⟨first, second :: rest, rfl, ?_⟩
      rw [aggregate_duplicates] at h
      cases h
      simp

lemma aggregate_duplicates_type_ne_other :
    ∀ g : List PlotRow, (∀ x ∈ g, x.gene_type ≠ "Other".data) →
      ∀ r, aggregate_duplicates g = some r → r.gene_type ≠ "Other".data := by
  intro g hg r h
  cases g with
  | nil => cases h
  | cons first tl =>
    cases tl with
    | nil =>
      have hx : first = r := by
        simp only [aggregate_duplicates] at h
        exact Option.some.inj h
      subst hx
      exact hg first (by simp)
    | cons second rest =>
      rw [aggregate_duplicates] at h
      cases h
      show joinChar '/' (sortAscBy id (firstSeen ((first :: second :: rest).map (·.gene_type))))
          ≠ "Other".data
      cases hs : sortAscBy id (firstSeen ((first :: second :: rest).map (·.gene_type))) with
      | nil => rw [joinChar]; decide
      | cons t ts =>
        cases ts with
        | nil =>
          rw [joinChar]
          have ht : t ∈ sortAscBy id (firstSeen ((first :: second :: rest).map (·.gene_type))) := by
            rw [hs]; simp
          rw [mem_sortAscBy, mem_firstSeen] at ht
          rcases List.mem_map.mp ht with ⟨x, hx, hxt⟩
          rw [← hxt]
          exact hg x hx
        | cons t2 ts2 =>
          intro heq
          have hsl : '/' ∈ joinChar '/' (t :: t2 :: ts2) := slash_mem_joinChar t t2 ts2
          rw [heq] at hsl
          revert hsl
          decide

/-- Witness for C3's empty-set outcome: a sample whose only hits are
ARG hits yields no colocalized contigs and `analyze_sample` returns
the informational `none`. -/
theorem C3_colocalization_flag_iff_witness :
    analyzeSample []
      [⟨"c1_1".data, "gb|x|tolC".data, "99.0".data, "1e-20".data, "55.5".data⟩] []
      [⟨"c1".data, "prodigal".data, "CDS".data, 1, 300, ".".data, "+".data, "0".data,
        "ID=1_1;x".data⟩]
      = none :=
  (C3_colocalization_flag_iff []
    [⟨"c1_1".data, "gb|x|tolC".data, "99.0".data, "1e-20".data, "55.5".data⟩] []
    [⟨"c1".data, "prodigal".data, "CDS".data, 1, 300, ".".data, "+".data, "0".data,
      "ID=1_1;x".data⟩]).2 (by decide)

lemma aggregate_group_pid (ann : List PlotRow) (k : List Char) (r : PlotRow)
    (h : aggregate_duplicates (ann.filter (fun x => x.protein_id = k)) = some r) :
    r.protein_id = k := by
  rcases aggregate_duplicates_fst _ r h with ⟨first, rest, hgr, hpid, _⟩
  have hf : first ∈ ann.filter (fun x => x.protein_id = k) := by
    rw [hgr]; simp
  have := List.mem_filter.mp hf
  rw [hpid]
  simpa using this.2

lemma mergedPart_filter_not_mem (ann : List PlotRow) (pid : List Char) :
    ∀ keys : List (List Char), pid ∉ keys →
      ((keys.map (fun k => ann.filter (fun x => x.protein_id = k))).filterMap
          aggregate_duplicates).filter (fun r => r.protein_id = pid) = [] := by
  intro keys
  induction keys with
  | nil => intro _; rfl
  | cons k ks ih =>
    intro h
    have hk : k ≠ pid := fun he => h (by simp [he])
    have hks : pid ∉ ks := fun he => h (by simp [he])
    rw [List.map_cons, List.filterMap_cons]
    cases ha : aggregate_duplicates (ann.filter (fun x => x.protein_id = k)) with
    | none => exact ih hks
    | some r =>
      have hr : r.protein_id = k := aggregate_group_pid ann k r ha
      rw [List.filter_cons]
      rw [if_neg (by simp [hr, hk])]
      exact ih hks

lemma mergedPart_filter_mem (ann : List PlotRow) (pid : List Char) :
    ∀ keys : List (List Char), keys.Nodup → pid ∈ keys →
      ((keys.map (fun k => ann.filter (fun x => x.protein_id = k))).filterMap
          aggregate_duplicates).filter (fun r => r.protein_id = pid)
        = (aggregate_duplicates (ann.filter (fun x => x.protein_id = pid))).toList := by
  intro keys
  induction keys with
  | nil => intro _ hmem; simp at hmem
  | cons k ks ih =>
    intro hnd hmem
    rw [List.nodup_cons] at hnd
    rw [List.map_cons, List.filterMap_cons]
    by_cases hk : k = pid
    · subst hk
      cases ha : aggregate_duplicates (ann.filter (fun x => x.protein_id = k)) with
      | none =>
        rw [mergedPart_filter_not_mem ann k ks hnd.1]
        rfl
      | some r =>
        have hr : r.protein_id = k := aggregate_group_pid ann k r ha
        rw [List.filter_cons, if_pos (by simp [hr]), mergedPart_filter_not_mem ann k ks hnd.1]
        rfl
    · have hmem' : pid ∈ ks := by
        rcases List.mem_cons.mp hmem with h | h
        · exact absurd h.symm hk
        · exact h
      cases ha : aggregate_duplicates (ann.filter (fun x => x.protein_id = k)) with
      | none => exact ih hnd.2 hmem'
      | some r =>
        have hr : r.protein_id = k := aggregate_group_pid ann k r ha
        rw [List.filter_cons, if_neg (by simp [hr, hk])]
        exact ih hnd.2 hmem'

lemma mem_mergedPart_type_ne_other (rows : List PlotRow) :
    ∀ r ∈ (groupByProtein (rows.filter (fun x => x.gene_type ≠ "Other".data))).filterMap
        aggregate_duplicates,
      r.gene_type ≠ "Other".data := by
  intro r hr
  rcases List.mem_filterMap.mp hr with ⟨g, hgmem, ha⟩
  rcases List.mem_map.mp hgmem with ⟨k, _, hgk⟩
  refine aggregate_duplicates_type_ne_other g ?_ r ha
  intro x hx
  rw [← hgk] at hx
  have hx1 := (List.mem_filter.mp hx).1
  have := (List.mem_filter.mp hx1).2
  simpa using this

lemma nodup_sortAscBy (key : α → List Char) (l : List α) (h : l.Nodup) :
    (sortAscBy key l).Nodup :=
  nodup_sortComp _ l h

/-! ## Claim C4 -/
/-- Claim C4:.  For every protein id whose group of annotated rows (the
rows with `gene_type ≠ 'Other'`) has more than one member, the
deduplication pass emits exactly one non-`'Other'` row for that
protein: its `gene_type` is the `'/'`-joined sorted set of the group's
gene types, its `gene_name` the `' / '`-joined distinct non-null gene
names in first-seen order, and its positional fields (contig, start,
end, strand) are the first row's, which the record update leaves
untouched.  Rows with `gene_type = 'Other'` are excluded from the merge
pass and reappear unchanged. -/
theorem C4_duplicate_annotation_merger (rows : List PlotRow) (pid : List Char)
    (first : PlotRow) (rest : List PlotRow)
    (hg : (rows.filter (fun r => r.gene_type ≠ "Other".data)).filter
        (fun r => r.protein_id = pid) = first :: rest)
    (hne : rest ≠ []) :
    ((aggregateDuplicatesPass rows).filter
        (fun r => r.protein_id = pid ∧ r.gene_type ≠ "Other".data)
      = [{ first with
            gene_type := joinChar '/'
              (sortAscBy id (firstSeen ((first :: rest).map (·.gene_type)))),
            gene_name := some (joinSeq (' ' :: '/' :: [' '])
              (firstSeen ((first :: rest).filterMap (·.gene_name)))) }])
    ∧ (aggregateDuplicatesPass rows).filter (fun r => r.gene_type = "Other".data)
        = rows.filter (fun r => r.gene_type = "Other".data) := by
  have hfirst : first ∈ (rows.filter (fun r => r.gene_type ≠ "Other".data)).filter
      (fun r => r.protein_id = pid) := by
    rw [hg]; simp
  have hfirst2 := List.mem_filter.mp hfirst
  have hfpid : first.protein_id = pid := by simpa using hfirst2.2
  have hkeys : pid ∈ sortAscBy id (firstSeen
      ((rows.filter (fun r => r.gene_type ≠ "Other".data)).map (·.protein_id))) := by
    rw [mem_sortAscBy, mem_firstSeen, ← hfpid]
    exact List.mem_map_of_mem _ hfirst2.1
  have hnd : (sortAscBy id (firstSeen
      ((rows.filter (fun r => r.gene_type ≠ "Other".data)).map (·.protein_id)))).Nodup :=
    nodup_sortAscBy id _ (nodup_firstSeen _)
  constructor
  · rw [aggregateDuplicatesPass, List.filter_append]
    have hother : (rows.filter (fun r => r.gene_type = "Other".data)).filter
        (fun r => decide (r.protein_id = pid ∧ r.gene_type ≠ "Other".data)) = [] := by
      rw [List.filter_eq_nil_iff]
      intro a ha
      have := (List.mem_filter.mp ha).2
      simp at this ⊢
      intro _
      exact this
    rw [hother, List.append_nil]
    have hcong : (((groupByProtein (rows.filter (fun r => r.gene_type ≠ "Other".data))).filterMap
          aggregate_duplicates).filter
        (fun r => decide (r.protein_id = pid ∧ r.gene_type ≠ "Other".data)))
        = (((groupByProtein (rows.filter (fun r => r.gene_type ≠ "Other".data))).filterMap
          aggregate_duplicates).filter (fun r => r.protein_id = pid)) := by
      apply List.filter_congr
      intro x hx
      have := mem_mergedPart_type_ne_other rows x hx
      simp [this]
    rw [hcong, groupByProtein, mergedPart_filter_mem _ pid _ hnd hkeys, hg]
    cases rest with
    | nil => exact absurd rfl hne
    | cons second rest' => rfl
  · rw [aggregateDuplicatesPass, List.filter_append]
    have hmerged : (((groupByProtein (rows.filter (fun r => r.gene_type ≠ "Other".data))).filterMap
          aggregate_duplicates).filter (fun r => r.gene_type = "Other".data)) = [] := by
      rw [List.filter_eq_nil_iff]
      intro a ha
      have := mem_mergedPart_type_ne_other rows a ha
      simpa using this
    rw [hmerged, List.nil_append]
    rw [List.filter_eq_self]
    intro a ha
    exact (List.mem_filter.mp ha).2

/-- Witness for C4: one ARG row named `ceoB` and one HMRG row named
`acrF` on the same protein merge to a single row with gene type
`ARG/HMRG` and gene name `ceoB / acrF`, keeping the first row's
coordinates; an `Other` row passes through unchanged. -/
theorem C4_duplicate_annotation_merger_witness :
    ((aggregateDuplicatesPass
        [⟨"c1".data, "c1_7".data, 10, 20, "+".data, "ARG".data, some "ceoB".data⟩,
         ⟨"c1".data, "c1_7".data, 10, 20, "+".data, "HMRG".data, some "acrF".data⟩,
         ⟨"c1".data, "c1_8".data, 30, 40, "-".data, "Other".data, none⟩]).filter
        (fun r => r.protein_id = "c1_7".data ∧ r.gene_type ≠ "Other".data)
      = [⟨"c1".data, "c1_7".data, 10, 20, "+".data, "ARG/HMRG".data,
          some "ceoB / acrF".data⟩])
    ∧ (aggregateDuplicatesPass
        [⟨"c1".data, "c1_7".data, 10, 20, "+".data, "ARG".data, some "ceoB".data⟩,
         ⟨"c1".data, "c1_7".data, 10, 20, "+".data, "HMRG".data, some "acrF".data⟩,
         ⟨"c1".data, "c1_8".data, 30, 40, "-".data, "Other".data, none⟩]).filter
        (fun r => r.gene_type = "Other".data)
      = [⟨"c1".data, "c1_8".data, 30, 40, "-".data, "Other".data, none⟩] := by
  have h := C4_duplicate_annotation_merger
    [⟨"c1".data, "c1_7".data, 10, 20, "+".data, "ARG".data, some "ceoB".data⟩,
     ⟨"c1".data, "c1_7".data, 10, 20, "+".data, "HMRG".data, some "acrF".data⟩,
     ⟨"c1".data, "c1_8".data, 30, 40, "-".data, "Other".data, none⟩]
    "c1_7".data
    ⟨"c1".data, "c1_7".data, 10, 20, "+".data, "ARG".data, some "ceoB".data⟩
    [⟨"c1".data, "c1_7".data, 10, 20, "+".data, "HMRG".data, some "acrF".data⟩]
    (by decide) (by decide)
  refine ⟨?_, ?_⟩
  · rw [h.1]; decide
  · rw [h.2]; decide

/-! ### Counter lemmas -/
lemma lookupPair_bumpPair (p q : List Char × List Char) :
    ∀ cnt, lookupPair (bumpPair cnt q) p = lookupPair cnt p + (if p = q then 1 else 0) := by
  intro cnt
  induction cnt with
  | nil =>
    by_cases hpq : p = q
    · subst hpq; simp [bumpPair, lookupPair]
    · have hqp : ¬ q = p := fun h => hpq h.symm
      simp [bumpPair, lookupPair, hpq, hqp]
  | cons e rest ih =>
    rcases e with ⟨q', n⟩
    by_cases hq : q' = q
    · subst hq
      rw [bumpPair, if_pos rfl]
      by_cases hpq : q' = p
      · rw [lookupPair, if_pos hpq, lookupPair, if_pos hpq, if_pos hpq.symm]
      · rw [lookupPair, if_neg hpq, lookupPair, if_neg hpq,
          if_neg (fun h : p = q' => hpq h.symm)]
        omega
    · rw [bumpPair, if_neg hq]
      by_cases hpq : q' = p
      · rw [lookupPair, if_pos hpq, lookupPair, if_pos hpq]
        have : ¬ p = q := fun h => hq (hpq.trans h)
        rw [if_neg this]
        omega
      · rw [lookupPair, if_neg hpq, lookupPair, if_neg hpq, ih]

lemma lookupPair_bumpPairs (p : List Char × List Char) :
    ∀ (ps : List (List Char × List Char)) cnt,
      lookupPair (bumpPairs cnt ps) p = lookupPair cnt p + ps.count p := by
  intro ps
  induction ps with
  | nil => intro cnt; simp [bumpPairs]
  | cons q qs ih =>
    intro cnt
    rw [bumpPairs, List.foldl_cons]
    have := ih (bumpPair cnt q)
    rw [bumpPairs] at this
    rw [this, lookupPair_bumpPair p q cnt, List.count_cons]
    have hbeq : (q == p) = decide (p = q) := by
      by_cases h : p = q
      · subst h; simp
      · have hqp : ¬ q = p := fun hh => h hh.symm
        simp [h, hqp]
    rw [hbeq]
    by_cases h : p = q
    · simp [h]
      omega
    · simp [h]

lemma pairKeys_bumpPair (q : List Char × List Char) :
    ∀ cnt, (bumpPair cnt q).map (·.1)
      = (if q ∈ cnt.map (·.1) then cnt.map (·.1) else cnt.map (·.1) ++ [q]) := by
  intro cnt
  induction cnt with
  | nil => simp [bumpPair]
  | cons e rest ih =>
    rcases e with ⟨q', n⟩
    by_cases hq : q' = q
    · subst hq
      rw [bumpPair, if_pos rfl]
      simp
    · rw [bumpPair, if_neg hq]
      rw [List.map_cons, List.map_cons, ih]
      by_cases hmem : q ∈ rest.map (·.1)
      · rw [if_pos hmem, if_pos (by simp [hmem])]
      · have hqq : ¬ q = q' := fun h => hq h.symm
        rw [if_neg hmem, if_neg (by simp [hmem, hqq])]
        simp

lemma pairKeysNodup_bumpPair (q : List Char × List Char) (cnt)
    (h : (cnt.map (·.1)).Nodup) : ((bumpPair cnt q).map (·.1)).Nodup := by
  rw [pairKeys_bumpPair]
  by_cases hmem : q ∈ cnt.map (·.1)
  · rw [if_pos hmem]; exact h
  · rw [if_neg hmem]
    rw [List.nodup_append]
    exact ⟨h, List.nodup_singleton q, by simpa using hmem⟩

lemma pairKeysNodup_bumpPairs :
    ∀ (ps : List (List Char × List Char)) cnt, (cnt.map (·.1)).Nodup →
      ((bumpPairs cnt ps).map (·.1)).Nodup := by
  intro ps
  induction ps with
  | nil => intro cnt h; exact h
  | cons q qs ih =>
    intro cnt h
    rw [bumpPairs, List.foldl_cons]
    exact ih (bumpPair cnt q) (pairKeysNodup_bumpPair q cnt h)

lemma pairKeysNodup_fold (rows : List PlotRow) :
    ∀ (cs : List (List Char)) cnt, (cnt.map (·.1)).Nodup →
      ((cs.foldl (pairStep rows) cnt).map (·.1)).Nodup := by
  intro cs
  induction cs with
  | nil => intro cnt h; exact h
  | cons c cs' ih =>
    intro cnt h
    rw [List.foldl_cons]
    refine ih (pairStep rows cnt c) ?_
    rw [pairStep]
    by_cases hc : c ∈ hmrgContigs rows
    · rw [if_pos hc]
      exact pairKeysNodup_bumpPairs _ cnt h
    · rw [if_neg hc]; exact h

lemma lookupPair_of_mem :
    ∀ (cnt : List ((List Char × List Char) × Nat)), ((cnt.map (·.1)).Nodup) →
      ∀ p n, (p, n) ∈ cnt → lookupPair cnt p = n := by
  intro cnt
  induction cnt with
  | nil => intro _ p n hm; simp at hm
  | cons e rest ih =>
    rcases e with ⟨q, m⟩
    intro hnd p n hm
    rw [List.map_cons, List.nodup_cons] at hnd
    rcases List.mem_cons.mp hm with hm | hm
    · rw [Prod.mk.injEq] at hm
      rw [lookupPair, if_pos hm.1.symm]
      exact hm.2.symm
    · have hqp : ¬ q = p := by
        intro he
        subst he
        exact hnd.1 (List.mem_map_of_mem (·.1) hm)
      rw [lookupPair, if_neg hqp]
      exact ih hnd.2 p n hm

lemma count_map_pair_fst (x a h : List Char) :
    ∀ l2 : List (List Char), (l2.map (fun y => (x, y))).count (a, h)
      = if x = a then l2.count h else 0 := by
  intro l2
  induction l2 with
  | nil => simp
  | cons y ys ih =>
    rw [List.map_cons, List.count_cons, ih, List.count_cons]
    by_cases hx : x = a
    · subst hx
      by_cases hy : y = h
      · subst hy; simp
      · have : ¬ ((x, y) = (x, h)) := by simp [hy]
        simp [hy, this]
    · have : ¬ ((x, y) = (a, h)) := by simp [hx]
      simp [hx, this]

lemma count_listProd (a h : List Char) :
    ∀ l1 l2 : List (List Char), (listProd l1 l2).count (a, h) = l1.count a * l2.count h := by
  intro l1
  induction l1 with
  | nil => intro l2; simp [listProd]
  | cons x xs ih =>
    intro l2
    rw [listProd, List.flatMap_cons, List.count_append]
    have hx := count_map_pair_fst x a h l2
    rw [hx]
    have : (xs.flatMap fun a => l2.map fun h => (a, h)) = listProd xs l2 := rfl
    rw [this, ih l2, List.count_cons]
    by_cases hxa : x = a
    · subst hxa
      simp
      ring
    · have : ¬ (x == a) = true := by simp [hxa]
      simp [hxa]

lemma sum_map_ite_countP (P : α → Bool) :
    ∀ l : List α, (l.map (fun c => if P c then 1 else 0)).sum = l.countP P := by
  intro l
  induction l with
  | nil => simp
  | cons x xs ih =>
    rw [List.map_cons, List.sum_cons, ih, List.countP_cons]
    by_cases hx : P x
    · simp [hx]
      omega
    · simp [hx]

lemma lookupPair_fold (rows : List PlotRow) (p : List Char × List Char) :
    ∀ (cs : List (List Char)) cnt,
      lookupPair (cs.foldl (pairStep rows) cnt) p
        = lookupPair cnt p
          + (cs.map (fun c => if c ∈ hmrgContigs rows then
              (listProd (argNamesOn rows c) (hmrgNamesOn rows c)).count p else 0)).sum := by
  intro cs
  induction cs with
  | nil => intro cnt; simp
  | cons c cs' ih =>
    intro cnt
    rw [List.foldl_cons, List.map_cons, List.sum_cons, ih (pairStep rows cnt c)]
    by_cases hc : c ∈ hmrgContigs rows
    · rw [pairStep, if_pos hc, if_pos hc, lookupPair_bumpPairs]
      omega
    · rw [pairStep, if_neg hc, if_neg hc]
      omega

lemma mem_argNamesOn_argContigs (rows : List PlotRow) (a c : List Char)
    (h : a ∈ argNamesOn rows c) : c ∈ argContigs rows := by
  rw [argNamesOn, mem_firstSeen] at h
  rcases List.mem_filterMap.mp h with ⟨r, hr, _⟩
  have hrf := List.mem_filter.mp hr
  have hcond : r.gene_type = "ARG".data ∧ r.contig_id = c := by simpa using hrf.2
  rw [argContigs, mem_sortAscBy, mem_firstSeen, ← hcond.2]
  exact List.mem_map_of_mem _ (List.mem_filter.mpr ⟨hrf.1, by simp [hcond.1]⟩)

lemma mem_hmrgNamesOn_hmrgContigs (rows : List PlotRow) (b c : List Char)
    (h : b ∈ hmrgNamesOn rows c) : c ∈ hmrgContigs rows := by
  rw [hmrgNamesOn, mem_firstSeen] at h
  rcases List.mem_filterMap.mp h with ⟨r, hr, _⟩
  have hrf := List.mem_filter.mp hr
  have hcond : r.gene_type = "HMRG".data ∧ r.contig_id = c := by simpa using hrf.2
  rw [hmrgContigs, mem_sortAscBy, mem_firstSeen, ← hcond.2]
  exact List.mem_map_of_mem _ (List.mem_filter.mpr ⟨hrf.1, by simp [hcond.1]⟩)

lemma mem_argNamesOn_allContigs (rows : List PlotRow) (a c : List Char)
    (h : a ∈ argNamesOn rows c) :
    c ∈ firstSeen ((pairAnnotated rows).map (·.contig_id)) := by
  rw [argNamesOn, mem_firstSeen] at h
  rcases List.mem_filterMap.mp h with ⟨r, hr, _⟩
  have hrf := List.mem_filter.mp hr
  have hcond : r.gene_type = "ARG".data ∧ r.contig_id = c := by simpa using hrf.2
  rw [mem_firstSeen, ← hcond.2]
  exact List.mem_map_of_mem _ hrf.1

lemma countP_transfer [DecidableEq α] (l₁ l₂ : List α) (p : α → Bool)
    (h₁ : l₁.Nodup) (h₂ : l₂.Nodup)
    (himp : ∀ x, p x = true → (x ∈ l₁ ∧ x ∈ l₂)) :
    l₁.countP p = l₂.countP p := by
  rw [List.countP_eq_length_filter, List.countP_eq_length_filter]
  apply List.Perm.length_eq
  rw [List.perm_ext_iff_of_nodup (h₁.filter p) (h₂.filter p)]
  intro x
  constructor
  · intro hx
    have hm := List.mem_filter.mp hx
    exact List.mem_filter.mpr ⟨(himp x hm.2).2, hm.2⟩
  · intro hx
    have hm := List.mem_filter.mp hx
    exact List.mem_filter.mpr ⟨(himp x hm.2).1, hm.2⟩

lemma count_nodup_ite (l : List (List Char)) (h : l.Nodup) (a : List Char) :
    l.count a = if a ∈ l then 1 else 0 := by
  induction l with
  | nil => simp
  | cons x xs ih =>
    rw [List.nodup_cons] at h
    rw [List.count_cons, ih h.2]
    by_cases hax : a = x
    · subst hax
      have hz : xs.count a = 0 := List.count_eq_zero.mpr h.1
      rw [hz] at *
      have : ¬ a ∈ xs := h.1
      simp [this]
    · have hxa : ¬ x = a := fun hh => hax hh.symm
      have hbx : (x == a) = false := by simp [hxa]
      rw [hbx]
      by_cases hm : a ∈ xs
      · simp [hm, hax]
      · simp [hm, hax]

lemma lookup_pairCounter (rows : List PlotRow) (a h : List Char) :
    lookupPair (pairCounter rows) (a, h)
      = (firstSeen ((pairAnnotated rows).map (·.contig_id))).countP
          (fun c => decide (a ∈ argNamesOn rows c ∧ h ∈ hmrgNamesOn rows c)) := by
  rw [pairCounter, lookupPair_fold rows (a, h) (argContigs rows) []]
  rw [show lookupPair [] (a, h) = 0 from rfl, Nat.zero_add]
  have hmap : (argContigs rows).map (fun c => if c ∈ hmrgContigs rows then
        (listProd (argNamesOn rows c) (hmrgNamesOn rows c)).count (a, h) else 0)
      = (argContigs rows).map (fun c =>
          if (fun c => decide (a ∈ argNamesOn rows c ∧ h ∈ hmrgNamesOn rows c)) c
          then 1 else 0) := by
    apply List.map_congr_left
    intro c _
    by_cases hhm : c ∈ hmrgContigs rows
    · have hca : (argNamesOn rows c).count a = if a ∈ argNamesOn rows c then 1 else 0 :=
        count_nodup_ite _ (nodup_firstSeen _) a
      have hch : (hmrgNamesOn rows c).count h = if h ∈ hmrgNamesOn rows c then 1 else 0 :=
        count_nodup_ite _ (nodup_firstSeen _) h
      rw [if_pos hhm, count_listProd, hca, hch]
      by_cases ha : a ∈ argNamesOn rows c
      · by_cases hh : h ∈ hmrgNamesOn rows c
        · rw [if_pos ha, if_pos hh]
          simp [ha, hh]
        · rw [if_pos ha, if_neg hh]
          simp [hh]
      · rw [if_neg ha]
        simp [ha]
    · rw [if_neg hhm]
      have hno : ¬ (a ∈ argNamesOn rows c ∧ h ∈ hmrgNamesOn rows c) := fun hcc =>
        hhm (mem_hmrgNamesOn_hmrgContigs rows h c hcc.2)
      simp [hno]
  rw [hmap, sum_map_ite_countP]
  apply countP_transfer _ _ _ (nodup_sortAscBy id _ (nodup_firstSeen _)) (nodup_firstSeen _)
  intro c hc
  simp only [decide_eq_true_eq] at hc
  exact ⟨mem_argNamesOn_argContigs rows a c hc.1, mem_argNamesOn_allContigs rows a c hc.1⟩

lemma pairAbundanceRows_sorted (rows : List PlotRow) :
    (pairAbundanceRows rows).Pairwise (fun x y => y.2 ≤ x.2) := by
  have hs := sortComp_sorted (α := (List Char × List Char) × Nat)
    (fun b a => decide (a.2 < b.2))
    (fun x y hxy => by simp at hxy ⊢; omega)
    (fun x y z h1 h2 => by simp at h1 h2 ⊢; omega)
    (pairCounter rows)
  refine List.Pairwise.imp ?_ hs
  intro x y hxy
  simpa using hxy

/-! ## Claim C5 -/
/-- Claim C5:.  Every row `((a, h), n)` of the written pair-abundance
report has `n` equal to the number of distinct contigs on which the
ARG name `a` and the HMRG name `h` co-occur (a contig contributes at
most `1` per pair regardless of how many rows repeat either name on
it), and the report is sorted descending by `shared_contig_count`. -/
theorem C5_pair_abundance_counts (rows : List PlotRow) :
    (∀ a h n, ((a, h), n) ∈ pairAbundanceRows rows →
        n = (firstSeen ((pairAnnotated rows).map (·.contig_id))).countP
              (fun c => decide (a ∈ argNamesOn rows c ∧ h ∈ hmrgNamesOn rows c)))
    ∧ (pairAbundanceRows rows).Pairwise (fun x y => y.2 ≤ x.2) := by
  constructor
  · intro a h n hm
    have hm' : ((a, h), n) ∈ pairCounter rows := by
      have := (mem_sortComp (α := (List Char × List Char) × Nat)
        (fun b a => decide (a.2 < b.2)) ((a, h), n) (pairCounter rows)).mp
      exact this hm
    have hnd : ((pairCounter rows).map (·.1)).Nodup := by
      rw [pairCounter]
      exact pairKeysNodup_fold rows _ [] (by simp)
    have hl := lookupPair_of_mem (pairCounter rows) hnd (a, h) n hm'
    rw [← hl, lookup_pairCounter]
  · exact pairAbundanceRows_sorted rows

/-- Witness for C5: on a sample where ARG `A1` appears twice on contig
`c1` (once on `c2`, once alone on `c3`) and HMRG `H1` appears on `c1`
and `c2`, the pair `(A1, H1)` is counted once per co-occurring contig:
2, not 3. -/
theorem C5_pair_abundance_counts_witness :
    (2 : Nat) = (firstSeen ((pairAnnotated
        [⟨"c1".data, "c1_1".data, 1, 2, "+".data, "ARG".data, some "A1".data⟩,
         ⟨"c1".data, "c1_2".data, 3, 4, "+".data, "ARG".data, some "A1".data⟩,
         ⟨"c1".data, "c1_3".data, 5, 6, "+".data, "ARG".data, some "A2".data⟩,
         ⟨"c1".data, "c1_4".data, 7, 8, "-".data, "HMRG".data, some "H1".data⟩,
         ⟨"c2".data, "c2_1".data, 1, 2, "+".data, "ARG".data, some "A1".data⟩,
         ⟨"c2".data, "c2_2".data, 3, 4, "-".data, "HMRG".data, some "H1".data⟩,
         ⟨"c3".data, "c3_1".data, 1, 2, "+".data, "ARG".data, some "A1".data⟩]).map
          (·.contig_id))).countP
        (fun c => decide ("A1".data ∈ argNamesOn
            [⟨"c1".data, "c1_1".data, 1, 2, "+".data, "ARG".data, some "A1".data⟩,
             ⟨"c1".data, "c1_2".data, 3, 4, "+".data, "ARG".data, some "A1".data⟩,
             ⟨"c1".data, "c1_3".data, 5, 6, "+".data, "ARG".data, some "A2".data⟩,
             ⟨"c1".data, "c1_4".data, 7, 8, "-".data, "HMRG".data, some "H1".data⟩,
             ⟨"c2".data, "c2_1".data, 1, 2, "+".data, "ARG".data, some "A1".data⟩,
             ⟨"c2".data, "c2_2".data, 3, 4, "-".data, "HMRG".data, some "H1".data⟩,
             ⟨"c3".data, "c3_1".data, 1, 2, "+".data, "ARG".data, some "A1".data⟩] c
          ∧ "H1".data ∈ hmrgNamesOn
            [⟨"c1".data, "c1_1".data, 1, 2, "+".data, "ARG".data, some "A1".data⟩,
             ⟨"c1".data, "c1_2".data, 3, 4, "+".data, "ARG".data, some "A1".data⟩,
             ⟨"c1".data, "c1_3".data, 5, 6, "+".data, "ARG".data, some "A2".data⟩,
             ⟨"c1".data, "c1_4".data, 7, 8, "-".data, "HMRG".data, some "H1".data⟩,
             ⟨"c2".data, "c2_1".data, 1, 2, "+".data, "ARG".data, some "A1".data⟩,
             ⟨"c2".data, "c2_2".data, 3, 4, "-".data, "HMRG".data, some "H1".data⟩,
             ⟨"c3".data, "c3_1".data, 1, 2, "+".data, "ARG".data, some "A1".data⟩] c)) :=
  (C5_pair_abundance_counts
    [⟨"c1".data, "c1_1".data, 1, 2, "+".data, "ARG".data, some "A1".data⟩,
     ⟨"c1".data, "c1_2".data, 3, 4, "+".data, "ARG".data, some "A1".data⟩,
     ⟨"c1".data, "c1_3".data, 5, 6, "+".data, "ARG".data, some "A2".data⟩,
     ⟨"c1".data, "c1_4".data, 7, 8, "-".data, "HMRG".data, some "H1".data⟩,
     ⟨"c2".data, "c2_1".data, 1, 2, "+".data, "ARG".data, some "A1".data⟩,
     ⟨"c2".data, "c2_2".data, 3, 4, "-".data, "HMRG".data, some "H1".data⟩,
     ⟨"c3".data, "c3_1".data, 1, 2, "+".data, "ARG".data, some "A1".data⟩]).1
    "A1".data "H1".data 2 (by decide)

/-! ## Claim C7 -/
/-- Claim C7:.  Every selected contig carries score
`ARG_hit_count × HMRG_hit_count` and a strictly positive one — so a
contig with 0 HMRG hits never appears; the selection is sorted
descending by score; and at most `NUM_TOP_CONTIGS_TO_PLOT = 10`
contigs are selected. -/
theorem C7_density_ranker (rows : List PlotRow) :
    (∀ c s, (c, s) ∈ topDensityContigs rows →
        s = typeCountOn rows c "ARG".data * typeCountOn rows c "HMRG".data ∧ 0 < s)
    ∧ (∀ c, typeCountOn rows c "HMRG".data = 0 → ∀ s, (c, s) ∉ topDensityContigs rows)
    ∧ (topDensityContigs rows).Pairwise (fun x y => y.2 ≤ x.2)
    ∧ (topDensityContigs rows).length ≤ NUM_TOP_CONTIGS_TO_PLOT
    ∧ NUM_TOP_CONTIGS_TO_PLOT = 10 := by
  have hmem : ∀ c s, (c, s) ∈ topDensityContigs rows →
      s = typeCountOn rows c "ARG".data * typeCountOn rows c "HMRG".data ∧ 0 < s := by
    intro c s hm
    have hf : (c, s) ∈ (sortDescNat (·.2) (densityScores rows)).filter (fun e => 0 < e.2) :=
      List.take_subset _ _ hm
    have hfm := List.mem_filter.mp hf
    have hpos : 0 < s := by simpa using hfm.2
    have hds : (c, s) ∈ densityScores rows := by
      have := (mem_sortComp (α := List Char × Nat) (fun b a => decide (a.2 < b.2))
        (c, s) (densityScores rows)).mp hfm.1
      exact this
    rcases List.mem_map.mp hds with ⟨c', _, hce⟩
    rw [Prod.mk.injEq] at hce
    rw [← hce.1]
    exact ⟨hce.2.symm, hpos⟩
  refine ⟨hmem, ?_, ?_, ?_, rfl⟩
  · intro c hz s hm
    rcases hmem c s hm with ⟨hs, hpos⟩
    rw [hz, Nat.mul_zero] at hs
    omega
  · have hs := sortComp_sorted (α := List Char × Nat) (fun b a => decide (a.2 < b.2))
      (fun x y hxy => by simp at hxy ⊢; omega)
      (fun x y z h1 h2 => by simp at h1 h2 ⊢; omega)
      (densityScores rows)
    have hs' : ((sortDescNat (·.2) (densityScores rows)).filter
        (fun e => 0 < e.2)).Pairwise (fun x y => (decide (x.2 < y.2)) = false) :=
      List.Pairwise.filter _ hs
    have hs'' := hs'.sublist (List.take_sublist NUM_TOP_CONTIGS_TO_PLOT _)
    refine List.Pairwise.imp ?_ hs''
    intro x y hxy
    simpa using hxy
  · exact List.length_take_le _ _

/-- Witness for C7: a contig with 3 ARG and 2 HMRG hits scores 6 and is
selected; a contig with 1 ARG hit and 0 HMRG hits is excluded from the
ranked output. -/
theorem C7_density_ranker_witness :
    ((6 : Nat) = typeCountOn
        [⟨"c1".data, "c1_1".data, 1, 2, "+".data, "ARG".data, some "a1".data⟩,
         ⟨"c1".data, "c1_2".data, 3, 4, "+".data, "ARG".data, some "a2".data⟩,
         ⟨"c1".data, "c1_3".data, 5, 6, "+".data, "ARG".data, some "a3".data⟩,
         ⟨"c1".data, "c1_4".data, 7, 8, "-".data, "HMRG".data, some "h1".data⟩,
         ⟨"c1".data, "c1_5".data, 9, 10, "-".data, "HMRG".data, some "h2".data⟩,
         ⟨"c2".data, "c2_1".data, 1, 2, "+".data, "ARG".data, some "a1".data⟩]
        "c1".data "ARG".data
      * typeCountOn
        [⟨"c1".data, "c1_1".data, 1, 2, "+".data, "ARG".data, some "a1".data⟩,
         ⟨"c1".data, "c1_2".data, 3, 4, "+".data, "ARG".data, some "a2".data⟩,
         ⟨"c1".data, "c1_3".data, 5, 6, "+".data, "ARG".data, some "a3".data⟩,
         ⟨"c1".data, "c1_4".data, 7, 8, "-".data, "HMRG".data, some "h1".data⟩,
         ⟨"c1".data, "c1_5".data, 9, 10, "-".data, "HMRG".data, some "h2".data⟩,
         ⟨"c2".data, "c2_1".data, 1, 2, "+".data, "ARG".data, some "a1".data⟩]
        "c1".data "HMRG".data
      ∧ (0 : Nat) < 6)
    ∧ ("c2".data, 0) ∉ topDensityContigs
        [⟨"c1".data, "c1_1".data, 1, 2, "+".data, "ARG".data, some "a1".data⟩,
         ⟨"c1".data, "c1_2".data, 3, 4, "+".data, "ARG".data, some "a2".data⟩,
         ⟨"c1".data, "c1_3".data, 5, 6, "+".data, "ARG".data, some "a3".data⟩,
         ⟨"c1".data, "c1_4".data, 7, 8, "-".data, "HMRG".data, some "h1".data⟩,
         ⟨"c1".data, "c1_5".data, 9, 10, "-".data, "HMRG".data, some "h2".data⟩,
         ⟨"c2".data, "c2_1".data, 1, 2, "+".data, "ARG".data, some "a1".data⟩] :=
  ⟨(C7_density_ranker
      [⟨"c1".data, "c1_1".data, 1, 2, "+".data, "ARG".data, some "a1".data⟩,
       ⟨"c1".data, "c1_2".data, 3, 4, "+".data, "ARG".data, some "a2".data⟩,
       ⟨"c1".data, "c1_3".data, 5, 6, "+".data, "ARG".data, some "a3".data⟩,
       ⟨"c1".data, "c1_4".data, 7, 8, "-".data, "HMRG".data, some "h1".data⟩,
       ⟨"c1".data, "c1_5".data, 9, 10, "-".data, "HMRG".data, some "h2".data⟩,
       ⟨"c2".data, "c2_1".data, 1, 2, "+".data, "ARG".data, some "a1".data⟩]).1
    "c1".data 6 (by decide),
   (C7_density_ranker
      [⟨"c1".data, "c1_1".data, 1, 2, "+".data, "ARG".data, some "a1".data⟩,
       ⟨"c1".data, "c1_2".data, 3, 4, "+".data, "ARG".data, some "a2".data⟩,
       ⟨"c1".data, "c1_3".data, 5, 6, "+".data, "ARG".data, some "a3".data⟩,
       ⟨"c1".data, "c1_4".data, 7, 8, "-".data, "HMRG".data, some "h1".data⟩,
       ⟨"c1".data, "c1_5".data, 9, 10, "-".data, "HMRG".data, some "h2".data⟩,
       ⟨"c2".data, "c2_1".data, 1, 2, "+".data, "ARG".data, some "a1".data⟩]).2.1
    "c2".data (by decide) 0⟩

/-! ## Claim C10 -/
/-- Claim C10:.  A raw HMRG hit whose subject-id extraction yields a value
absent from the translation table — in particular the sentinels
`"unknown_accession"` and `"parse_error"` — is translated to that very
value by the `fillna` fallback and counted in the abundance report like
an ordinary gene name, with a positive count, rather than being dropped
or reported as an error. -/
theorem C10_sentinels_counted (hmrgMap : List (List Char × List Char))
    (rows : List BacmetRawRow) (r : BacmetRawRow) (s : List Char)
    (hr : r ∈ rows) (hs : parse_hmrg_accession_v12 r.sseqid = s)
    (hmiss : alistFind s hmrgMap = none) :
    (s, (rows.map (fun x => translateHmrg hmrgMap x.sseqid)).count s)
        ∈ hmrgAbundanceRows hmrgMap rows
    ∧ 0 < (rows.map (fun x => translateHmrg hmrgMap x.sseqid)).count s := by
  have htr : translateHmrg hmrgMap r.sseqid = s := by
    rw [translateHmrg, hs, hmiss]
    rfl
  have hsm : s ∈ rows.map (fun x => translateHmrg hmrgMap x.sseqid) := by
    rw [← htr]
    exact List.mem_map_of_mem _ hr
  constructor
  · have hfs : s ∈ firstSeen (rows.map (fun x => translateHmrg hmrgMap x.sseqid)) :=
      (mem_firstSeen _ _).mpr hsm
    have hpm : (s, (rows.map (fun x => translateHmrg hmrgMap x.sseqid)).count s)
        ∈ (firstSeen (rows.map (fun x => translateHmrg hmrgMap x.sseqid))).map
          (fun g => (g, (rows.map (fun x => translateHmrg hmrgMap x.sseqid)).count g)) :=
      List.mem_map_of_mem _ hfs
    exact (mem_sortComp (α := List Char × Nat) (fun b a => decide (a.2 < b.2)) _ _).mpr hpm
  · exact List.count_pos_iff.mpr hsm

/-- Witness for C10: with a table containing only `X ↦ merA`, the raw
hits `abc` (no database code, a single field) and `ref` (raising
extraction) are counted under `unknown_accession` and `parse_error`
respectively. -/
theorem C10_sentinels_counted_witness :
    ((unknownAccession, 1) ∈ hmrgAbundanceRows [("X".data, "merA".data)]
        [⟨"p1".data, "abc".data⟩, ⟨"p2".data, "ref".data⟩])
    ∧ ((parseErrorStr, 1) ∈ hmrgAbundanceRows [("X".data, "merA".data)]
        [⟨"p1".data, "abc".data⟩, ⟨"p2".data, "ref".data⟩]) := by
  have h1 := (C10_sentinels_counted [("X".data, "merA".data)]
    [⟨"p1".data, "abc".data⟩, ⟨"p2".data, "ref".data⟩]
    ⟨"p1".data, "abc".data⟩ unknownAccession (by decide) (by rfl) (by rfl)).1
  have h2 := (C10_sentinels_counted [("X".data, "merA".data)]
    [⟨"p1".data, "abc".data⟩, ⟨"p2".data, "ref".data⟩]
    ⟨"p2".data, "ref".data⟩ parseErrorStr (by decide) (by rfl) (by rfl)).1
  constructor
  · have hc : (([⟨"p1".data, "abc".data⟩, ⟨"p2".data, "ref".data⟩] :
        List BacmetRawRow).map
        (fun x => translateHmrg [("X".data, "merA".data)] x.sseqid)).count unknownAccession
        = 1 := by decide
    rw [hc] at h1
    exact h1
  · have hc : (([⟨"p1".data, "abc".data⟩, ⟨"p2".data, "ref".data⟩] :
        List BacmetRawRow).map
        (fun x => translateHmrg [("X".data, "merA".data)] x.sseqid)).count parseErrorStr
        = 1 := by decide
    rw [hc] at h2
    exact h2

end ArgHmrg
